import Mathlib

/-!
# RetentiveNetwork: a shallow embedding of `src/RetentiveNetwork.h`

The C++ `float` is modelled by an arbitrary linearly ordered field `F`
(no rounding, no NaN, no infinities); `std::exp` is a parameter `exp : F → F`.
`std::vector` is a `List`; an access outside the vector (undefined behaviour in
the C++ program) makes the embedded operation return `none`.
Every draw from the process-wide random engine is an explicit argument.
A further part embeds the weight addressing of `src/StandardNetwork.h`, with
`unsigned short` counters taken modulo 65536, and the last one (`FloatModel`) gives the
forward pass and the activations over float values with NaN, infinities and rounding.
-/

namespace RetentiveNetworkModel

/-! ## Constants (RetentiveNetwork.h, lines 13-43) -/

/-- Number of reserved input neurons (`INPUT_COUNT`). -/
def INPUT_COUNT : Nat := 5

/-- Number of reserved output neurons (`OUTPUT_COUNT`). -/
def OUTPUT_COUNT : Nat := 6

/-- Number of reserved neurons (`RESERVED_COUNT = INPUT_COUNT + OUTPUT_COUNT`). -/
def RESERVED_COUNT : Nat := INPUT_COUNT + OUTPUT_COUNT

/-- Clamp bound of `pass` (`MAX_ACTIVATION_VALUE = 1e3`). -/
def MAX_ACTIVATION_VALUE {F : Type} [LinearOrderedField F] : F := 1000

/-- Chance of a new hidden neuron in `mutate`, out of 100. -/
def NEW_NEURON_CHANCE {F : Type} [LinearOrderedField F] : F := 5

/-- Chance of a new link in `mutate`, out of 100. -/
def NEW_RANDOM_LINK_CHANCE {F : Type} [LinearOrderedField F] : F := 25

/-- Chance of a link removal in `mutate`, out of 100. -/
def REMOVE_RANDOM_LINK_CHANCE {F : Type} [LinearOrderedField F] : F := 10

/-- Bounds `(a, b)` of `initial_neuron_count_distribution(3, 10)`. -/
def initial_neuron_count_distribution : Nat × Nat := (3, 10)

/-- Bounds `(a, b)` of `initial_random_link_count_distribution(0, 0)`. -/
def initial_random_link_count_distribution : Nat × Nat := (0, 0)

/-- A value `x` is a possible draw of a `uniform_int_distribution` with bounds `d`. -/
def CanDraw (d : Nat × Nat) (x : Nat) : Prop := d.1 ≤ x ∧ x ≤ d.2

instance (d : Nat × Nat) (x : Nat) : Decidable (CanDraw d x) := by
  unfold CanDraw; infer_instance

/-- Conversion of an `int` draw to `unsigned short`. -/
def to_ushort (n : Nat) : Nat := n % 65536

/-! ## Data model (lines 47-72) -/

/-- The class `Link`. -/
structure Link (F : Type) where
  start_neuron_index : Nat
  end_neuron_index : Nat
  weight : F
deriving DecidableEq

/-- The class `RetentiveNeuron`. -/
structure RetentiveNeuron (F : Type) where
  value : F
  retention : F
  bias : F
deriving DecidableEq

/-- The class `RetentiveNetwork`: two vectors. -/
structure RetentiveNetwork (F : Type) where
  neurons : List (RetentiveNeuron F)
  links : List (Link F)
deriving DecidableEq

/-- The default constructor `RetentiveNetwork()`: both vectors empty. -/
def RetentiveNetwork.fresh (F : Type) : RetentiveNetwork F := ⟨[], []⟩

section Ops

variable {F : Type} [LinearOrderedField F]

/-! ## Activation.h -/

/-- The function `std::min(a, b)`: `(b < a) ? b : a`. -/
def std_min (a b : F) : F := if b < a then b else a

/-- The function `std::max(a, b)`: `(a < b) ? b : a`. -/
def std_max (a b : F) : F := if a < b then b else a

/-- The function `sigmoid_activation`: `1.0f / (1.0f + std::exp(-value))`. -/
def sigmoid_activation (exp : F → F) (value : F) : F := 1 / (1 + exp (-value))

/-! ## Forward pass (lines 61-64, 163-188) -/

/-- The method `RetentiveNeuron::prepare`: `value *= retention; value += bias`. -/
def RetentiveNeuron.prepare (n : RetentiveNeuron F) : RetentiveNeuron F :=
  let v1 := n.value * n.retention
  let v2 := v1 + n.bias
  { n with value := v2 }

/-- The method `RetentiveNetwork::prepare`: every neuron is prepared in place. -/
def RetentiveNetwork.prepare (g : RetentiveNetwork F) : RetentiveNetwork F :=
  { g with neurons := g.neurons.map RetentiveNeuron.prepare }

/-- The method `get_output_at`: `neurons[INPUT_COUNT + output_index].value`. -/
def RetentiveNetwork.get_output_at (g : RetentiveNetwork F) (output_index : Nat) : Option F :=
  (g.neurons[INPUT_COUNT + output_index]?).map RetentiveNeuron.value

/-- One iteration of the loop of `apply_output_activation`:
`neurons[i].value = sigmoid_activation(neurons[i].value)`. -/
def activate_at (exp : F → F) (ns : List (RetentiveNeuron F)) (i : Nat) :
    Option (List (RetentiveNeuron F)) :=
  match ns[i]? with
  | some n => some (ns.set i { n with value := sigmoid_activation exp n.value })
  | none => none

/-- The method `apply_output_activation`: the loop over
`i = INPUT_COUNT, ..., INPUT_COUNT + OUTPUT_COUNT - 1`. -/
def RetentiveNetwork.apply_output_activation (exp : F → F) (g : RetentiveNetwork F) :
    Option (RetentiveNetwork F) :=
  ((List.range' INPUT_COUNT OUTPUT_COUNT).foldlM (activate_at exp) g.neurons).map
    fun ns => { g with neurons := ns }

/-- One iteration of the loop of `pass`: the end neuron accumulates
`start.value * weight`, then is bounded above and below. -/
def pass_link (ns : List (RetentiveNeuron F)) (link : Link F) :
    Option (List (RetentiveNeuron F)) :=
  match ns[link.end_neuron_index]?, ns[link.start_neuron_index]? with
  | some e, some s =>
    let v1 := e.value + s.value * link.weight
    let v2 := std_min v1 MAX_ACTIVATION_VALUE
    let v3 := std_max v2 (-MAX_ACTIVATION_VALUE)
    some (ns.set link.end_neuron_index { e with value := v3 })
  | _, _ => none

/-- The loop of `pass` over the links, in list order. -/
def pass_links (ns : List (RetentiveNeuron F)) (links : List (Link F)) :
    Option (List (RetentiveNeuron F)) :=
  links.foldlM pass_link ns

/-- The method `RetentiveNetwork::pass`. -/
def RetentiveNetwork.pass (exp : F → F) (g : RetentiveNetwork F) :
    Option (RetentiveNetwork F) :=
  match pass_links g.neurons g.links with
  | some ns => RetentiveNetwork.apply_output_activation exp { g with neurons := ns }
  | none => none

/-- Every link of the network has both endpoints below the neuron count. -/
def RetentiveNetwork.ValidLinks (g : RetentiveNetwork F) : Prop :=
  ∀ l ∈ g.links, l.start_neuron_index < g.neurons.length ∧
    l.end_neuron_index < g.neurons.length

/-- The method `copy_structure`: every parent neuron, then every parent link, is
pushed onto the vectors of `self`. -/
def RetentiveNetwork.copy_structure (self : RetentiveNetwork F)
    (parent_neurons : List (RetentiveNeuron F)) (parent_links : List (Link F)) :
    RetentiveNetwork F :=
  let neurons := parent_neurons.foldl
    (fun acc neuron => acc ++ [⟨neuron.value, neuron.retention, neuron.bias⟩]) self.neurons
  let links := parent_links.foldl
    (fun acc link => acc ++ [⟨link.start_neuron_index, link.end_neuron_index, link.weight⟩])
    self.links
  ⟨neurons, links⟩

/-- A loop pushing the zeroed neuron `count` times. -/
def push_zeroed : Nat → List (RetentiveNeuron F) → List (RetentiveNeuron F)
  | 0, ns => ns
  | count + 1, ns => push_zeroed count (ns ++ [⟨0, 0, 0⟩])

/-- The method `add_reserved_neurons`: the input loop, then the output loop. -/
def RetentiveNetwork.add_reserved_neurons (g : RetentiveNetwork F) : RetentiveNetwork F :=
  { g with neurons := push_zeroed OUTPUT_COUNT (push_zeroed INPUT_COUNT g.neurons) }

/-- The method `add_hidden_neuron`; `retention` and `bias` are the two draws. -/
def RetentiveNetwork.add_hidden_neuron (g : RetentiveNetwork F) (retention bias : F) :
    RetentiveNetwork F :=
  { g with neurons := g.neurons ++ [⟨0, retention, bias⟩] }

/-- The method `add_hidden_neurons`; `draws index` holds the retention and the
bias drawn by the call of iteration `index`. -/
def RetentiveNetwork.add_hidden_neurons (g : RetentiveNetwork F) (draws : Nat → F × F) :
    Nat → RetentiveNetwork F
  | 0 => g
  | index + 1 =>
    (RetentiveNetwork.add_hidden_neurons g draws index).add_hidden_neuron
      (draws index).1 (draws index).2

/-- The method `add_random_link`; `s` and `e` are the two draws of
`neuron_distribution` and `w` the draw of `weight_distribution`. -/
def RetentiveNetwork.add_random_link (g : RetentiveNetwork F) (s e : Nat) (w : F) :
    RetentiveNetwork F :=
  let start := to_ushort s
  let end0 := to_ushort e
  let end1 := if start = end0 then 0 else end0
  { g with links := g.links ++ [⟨start, end1, w⟩] }

/-- The method `add_random_links`; `draws index` holds the draws of iteration `index`. -/
def RetentiveNetwork.add_random_links (g : RetentiveNetwork F) (draws : Nat → Nat × Nat × F) :
    Nat → RetentiveNetwork F
  | 0 => g
  | index + 1 =>
    (RetentiveNetwork.add_random_links g draws index).add_random_link
      (draws index).1 (draws index).2.1 (draws index).2.2

/-- Bounds of the `link_distribution(0, (int) links.size())` of `remove_random_link`. -/
def RetentiveNetwork.link_distribution (g : RetentiveNetwork F) : Nat × Nat :=
  (0, g.links.length)

/-- The method `remove_random_link`; `k` is the draw of `link_distribution`.
`links.erase(links.begin() + k)` needs `k` to be a position of the vector. -/
def RetentiveNetwork.remove_random_link (g : RetentiveNetwork F) (k : Nat) :
    Option (RetentiveNetwork F) :=
  if k < g.links.length then some { g with links := g.links.eraseIdx k } else none

/-- The draws of one `initialize` call. -/
structure InitDraws (F : Type) where
  hidden_count : Nat
  hidden : Nat → F × F
  link_count : Nat
  new_links : Nat → Nat × Nat × F

/-- The method `initialize` (named `initialize_network` here, `initialize` being a Lean keyword). -/
def RetentiveNetwork.initialize_network (g : RetentiveNetwork F) (d : InitDraws F) :
    RetentiveNetwork F :=
  let g1 := g.add_reserved_neurons
  let g2 := g1.add_hidden_neurons d.hidden d.hidden_count
  g2.add_random_links d.new_links d.link_count

/-! ## Mutation (lines 128-153) -/

/-- The draws of one `mutate` call, in the order the code asks for them; the
draws of the two parametric loops are indexed by the position of the element. -/
structure MutateDraws (F : Type) where
  neuron_roll : F
  new_retention : F
  new_bias : F
  link_roll : F
  link_start : Nat
  link_end : Nat
  link_weight : F
  remove_roll : F
  remove_index : Nat
  weight_mult : Nat → F
  weight_add : Nat → F
  bias_mult : Nat → F
  bias_add : Nat → F
  retention_mult : Nat → F
  retention_add : Nat → F

/-- The weight loop of `mutate`. -/
def mutate_links (d : MutateDraws F) (links : List (Link F)) : List (Link F) :=
  links.mapIdx fun i link =>
    let w1 := link.weight * d.weight_mult i
    let w2 := w1 + d.weight_add i
    { link with weight := w2 }

/-- The bias and retention loop of `mutate`. -/
def mutate_neurons (d : MutateDraws F) (neurons : List (RetentiveNeuron F)) :
    List (RetentiveNeuron F) :=
  neurons.mapIdx fun i neuron =>
    let b1 := neuron.bias * d.bias_mult i
    let b2 := b1 + d.bias_add i
    let r1 := neuron.retention * d.retention_mult i
    let r2 := r1 + d.retention_add i
    { neuron with bias := b2, retention := r2 }

/-- The method `mutate`. -/
def RetentiveNetwork.mutate (g : RetentiveNetwork F) (d : MutateDraws F) :
    Option (RetentiveNetwork F) :=
  let g1 := if d.neuron_roll ≤ NEW_NEURON_CHANCE then
      g.add_hidden_neuron d.new_retention d.new_bias else g
  let g2 := if d.link_roll ≤ NEW_RANDOM_LINK_CHANCE then
      g1.add_random_link d.link_start d.link_end d.link_weight else g1
  let r3 := if d.remove_roll ≤ REMOVE_RANDOM_LINK_CHANCE then
      g2.remove_random_link d.remove_index else some g2
  match r3 with
  | some g3 => some ⟨mutate_neurons d g3.neurons, mutate_links d g3.links⟩
  | none => none

/-- Two networks living side by side: a parent and the offspring made from it. -/
structure Population (F : Type) where
  parent : RetentiveNetwork F
  offspring : RetentiveNetwork F

/-- Reproduction: the offspring calls `copy_structure(parent.neurons, parent.links)`. -/
def Population.clone_step (p : Population F) : Population F :=
  { p with offspring := p.offspring.copy_structure p.parent.neurons p.parent.links }

/-- The offspring calls `mutate()`. -/
def Population.mutate_offspring (p : Population F) (d : MutateDraws F) :
    Option (Population F) :=
  (p.offspring.mutate d).map fun o => { p with offspring := o }

/-! ## Reference definitions, following the specification's words -/

/-- Bounding `x` into `[lo, hi]`. -/
def clamp (x lo hi : F) : F := max lo (min x hi)

/-- Reference step of `reference_pass`: `end.value` becomes
`clamp(end.value + start.value * weight, -MAX_ACTIVATION_VALUE, MAX_ACTIVATION_VALUE)`. -/
def reference_step (ns : List (RetentiveNeuron F)) (link : Link F) :
    List (RetentiveNeuron F) :=
  match ns[link.end_neuron_index]?, ns[link.start_neuron_index]? with
  | some e, some s =>
    let sum := e.value + s.value * link.weight
    ns.set link.end_neuron_index
      { e with value := clamp sum (-MAX_ACTIVATION_VALUE) MAX_ACTIVATION_VALUE }
  | _, _ => ns

/-- Reference output activation: the logistic sigmoid on the output neurons only. -/
def reference_activation (exp : F → F) (ns : List (RetentiveNeuron F)) :
    List (RetentiveNeuron F) :=
  ns.mapIdx fun i n =>
    if INPUT_COUNT ≤ i ∧ i < INPUT_COUNT + OUTPUT_COUNT then
      { n with value := 1 / (1 + exp (-n.value)) } else n

/-- Reference definition of `pass`: a fold over the links in list order, then the
logistic sigmoid on the output neurons. -/
def reference_pass (exp : F → F) (g : RetentiveNetwork F) : RetentiveNetwork F :=
  { g with neurons := reference_activation exp (g.links.foldl reference_step g.neurons) }

/-- The neurons a value held by neuron `a` can reach during one loop over `links`:
the end of a link joins as soon as its start has joined. -/
def reached (links : List (Link F)) (a : Nat) : List Nat :=
  links.foldl
    (fun seen link => if link.start_neuron_index ∈ seen then link.end_neuron_index :: seen
      else seen) [a]

end Ops

/-! ## Concrete inputs -/

section Samples

variable (F : Type) [LinearOrderedField F]

/-- The eleven reserved neurons and three hidden ones, all zeroed except that hidden
neuron 11 holds the value `v`. -/
def fourteen_neurons (v : F) : List (RetentiveNeuron F) :=
  [⟨0, 0, 0⟩, ⟨0, 0, 0⟩, ⟨0, 0, 0⟩, ⟨0, 0, 0⟩, ⟨0, 0, 0⟩, ⟨0, 0, 0⟩, ⟨0, 0, 0⟩,
   ⟨0, 0, 0⟩, ⟨0, 0, 0⟩, ⟨0, 0, 0⟩, ⟨0, 0, 0⟩, ⟨v, 0, 0⟩, ⟨0, 0, 0⟩, ⟨0, 0, 0⟩]

/-- Links `11 -> 12` then `12 -> 13`, both of weight 1. -/
def chain_network (v : F) : RetentiveNetwork F :=
  ⟨fourteen_neurons F v, [⟨11, 12, 1⟩, ⟨12, 13, 1⟩]⟩

/-- The same two links in the other list order: `12 -> 13` then `11 -> 12`. -/
def reversed_chain_network (v : F) : RetentiveNetwork F :=
  ⟨fourteen_neurons F v, [⟨12, 13, 1⟩, ⟨11, 12, 1⟩]⟩

/-- Fourteen neurons and no link, as `initialize` leaves a network. -/
def linkless_network : RetentiveNetwork F :=
  ⟨fourteen_neurons F 0, []⟩

/-- The reserved neurons with stale values 7, retention and bias 0, and the single
link `0 -> INPUT_COUNT` of weight 2. -/
def scenario_network : RetentiveNetwork F :=
  ⟨[⟨7, 0, 0⟩, ⟨7, 0, 0⟩, ⟨7, 0, 0⟩, ⟨7, 0, 0⟩, ⟨7, 0, 0⟩, ⟨7, 0, 0⟩, ⟨7, 0, 0⟩,
    ⟨7, 0, 0⟩, ⟨7, 0, 0⟩, ⟨7, 0, 0⟩, ⟨7, 0, 0⟩], [⟨0, INPUT_COUNT, 2⟩]⟩

/-- Draws of an `initialize` call: four hidden neurons, no link. -/
def sample_init_draws : InitDraws F :=
  ⟨4, fun _ => (1 / 10, 1 / 10), 0, fun _ => (0, 0, 0)⟩

/-- Draws of a `mutate` call that adds a neuron and a link and removes nothing. -/
def sample_mutate_draws : MutateDraws F :=
  ⟨1, 1 / 10, 1 / 10, 1, 3, 12, 1 / 2, 50, 0,
    fun _ => 1, fun _ => 0, fun _ => 1, fun _ => 0, fun _ => 1, fun _ => 0⟩

end Samples

/-! ## Reachable genotypes and the structural half of `mutate` -/

section Reach

variable {F : Type} [LinearOrderedField F]

/-- A value `x` is a possible draw of a `uniform_int_distribution<>` (of `int`) with
bounds `d`. -/
def CanDrawInt (d : Int × Int) (x : Int) : Prop := d.1 ≤ x ∧ x ≤ d.2

instance (d : Int × Int) (x : Int) : Decidable (CanDrawInt d x) := by
  unfold CanDrawInt; infer_instance

/-- Bounds of the `neuron_distribution(0, (int) neurons.size() - 1)` of
`add_random_link` (the cast to `int` is taken as exact). -/
def RetentiveNetwork.neuron_distribution (g : RetentiveNetwork F) : Int × Int :=
  (0, (g.neurons.length : Int) - 1)

/-- The three structural steps of `mutate` (lines 129-139), before the two
parametric loops. -/
def RetentiveNetwork.mutate_structural (g : RetentiveNetwork F) (d : MutateDraws F) :
    Option (RetentiveNetwork F) :=
  let g1 := if d.neuron_roll ≤ NEW_NEURON_CHANCE then
      g.add_hidden_neuron d.new_retention d.new_bias else g
  let g2 := if d.link_roll ≤ NEW_RANDOM_LINK_CHANCE then
      g1.add_random_link d.link_start d.link_end d.link_weight else g1
  if d.remove_roll ≤ REMOVE_RANDOM_LINK_CHANCE then
    g2.remove_random_link d.remove_index else some g2

/-- The genotypes reached from `initialize` by `add_hidden_neuron`, `add_random_link`
(draws within `neuron_distribution`), the removal of an existing link, `prepare` and
`pass`. -/
inductive Reachable (exp : F → F) : RetentiveNetwork F → Prop
  | init (d : InitDraws F)
      (hn : CanDraw initial_neuron_count_distribution d.hidden_count)
      (hl : CanDraw initial_random_link_count_distribution d.link_count) :
      Reachable exp ((RetentiveNetwork.fresh F).initialize_network d)
  | hidden (g : RetentiveNetwork F) (retention bias : F) (h : Reachable exp g) :
      Reachable exp (g.add_hidden_neuron retention bias)
  | link (g : RetentiveNetwork F) (s e : Nat) (w : F) (h : Reachable exp g)
      (hs : CanDrawInt g.neuron_distribution s) (he : CanDrawInt g.neuron_distribution e) :
      Reachable exp (g.add_random_link s e w)
  | removal (g g1 : RetentiveNetwork F) (k : Nat) (h : Reachable exp g)
      (hk : g.remove_random_link k = some g1) : Reachable exp g1
  | prepared (g : RetentiveNetwork F) (h : Reachable exp g) : Reachable exp g.prepare
  | passed (g g1 : RetentiveNetwork F) (h : Reachable exp g)
      (hp : g.pass exp = some g1) : Reachable exp g1

/-- The genotypes reached from `initialize` by `mutate`, `add_random_link` (any draws)
and the removal of an existing link. -/
inductive ReachableByMutation : RetentiveNetwork F → Prop
  | init (d : InitDraws F)
      (hl : CanDraw initial_random_link_count_distribution d.link_count) :
      ReachableByMutation ((RetentiveNetwork.fresh F).initialize_network d)
  | mutated (g g1 : RetentiveNetwork F) (d : MutateDraws F) (h : ReachableByMutation g)
      (hm : g.mutate d = some g1) : ReachableByMutation g1
  | link (g : RetentiveNetwork F) (s e : Nat) (w : F) (h : ReachableByMutation g) :
      ReachableByMutation (g.add_random_link s e w)
  | removal (g g1 : RetentiveNetwork F) (k : Nat) (h : ReachableByMutation g)
      (hk : g.remove_random_link k = some g1) : ReachableByMutation g1

/-- A network of 65537 zeroed neurons without links. -/
def wide_network (F : Type) [LinearOrderedField F] : RetentiveNetwork F :=
  ⟨List.replicate 65537 ⟨0, 0, 0⟩, []⟩

/-- Draws of a `mutate` call that adds nothing and whose removal step fires, with
the index 0 drawn. -/
def removal_draws (F : Type) [LinearOrderedField F] : MutateDraws F :=
  ⟨50, 1 / 10, 1 / 10, 50, 0, 0, 1 / 2, 5, 0,
    fun _ => 1, fun _ => 0, fun _ => 1, fun _ => 0, fun _ => 1, fun _ => 0⟩

end Reach

end RetentiveNetworkModel

/-! # StandardNetwork.h: the weight addressing of the fixed-topology `Network` -/

namespace StandardNetworkModel

/-- Conversion to `unsigned short`. -/
def to_ushort (n : Nat) : Nat := n % 65536

/-- The function `layer_count()`: an `unsigned short` counter over the pack `LAYER_SIZES`. -/
def layer_count (LAYER_SIZES : List Nat) : Nat := to_ushort LAYER_SIZES.length

/-- The function `layer_size_at(index)`: `layer_sizes()[index]`. -/
def layer_size_at (LAYER_SIZES : List Nat) (index : Nat) : Option Nat := LAYER_SIZES[index]?

/-- The `unsigned short count` after the iterations `layer_index = 1, ..., k` of the
loop `count += layer_size_at(layer_index) * layer_size_at(layer_index - 1)`, shared by
`weight_count` and `get_weight_at`. -/
def weight_count_loop (LAYER_SIZES : List Nat) : Nat → Option Nat
  | 0 => some 0
  | k + 1 =>
    match weight_count_loop LAYER_SIZES k, layer_size_at LAYER_SIZES (k + 1),
      layer_size_at LAYER_SIZES k with
    | some count, some a, some b => some (to_ushort (count + a * b))
    | _, _, _ => none

/-- The function `weight_count()`: the loop runs for `layer_index` from 1 to
`layer_count() - 1`. -/
def weight_count (LAYER_SIZES : List Nat) : Option Nat :=
  weight_count_loop LAYER_SIZES (layer_count LAYER_SIZES - 1)

/-- The index `count` that `get_weight_at(target_layer_index, neuron_index, input_index)`
computes before it reads `this->weights[count]`. The loop runs for `layer_index` from 1
to `target_layer_index - 1`; the argument `target_layer_index - 1` of `layer_size_at` is
converted to `unsigned short` (65535 for layer 0); every `+=` on the `unsigned short`
counter wraps at 65536. -/
def get_weight_at_index (LAYER_SIZES : List Nat)
    (target_layer_index neuron_index input_index : Nat) : Option Nat :=
  match weight_count_loop LAYER_SIZES (target_layer_index - 1),
    layer_size_at LAYER_SIZES (to_ushort (target_layer_index + 65535)) with
  | some count, some previous =>
    let count1 := to_ushort (count + neuron_index * previous)
    let count2 := to_ushort (count1 + input_index)
    some count2
  | _, _ => none

/-- The exact sum of `size[l] * size[l-1]` over `l = 1, ..., k` (no wrap-around). -/
def weight_offset (LAYER_SIZES : List Nat) : Nat → Nat
  | 0 => 0
  | k + 1 => weight_offset LAYER_SIZES k + LAYER_SIZES.getD (k + 1) 0 * LAYER_SIZES.getD k 0

/-- The exact total number of weights of the layer sizes. -/
def weight_total (LAYER_SIZES : List Nat) : Nat :=
  weight_offset LAYER_SIZES (LAYER_SIZES.length - 1)

end StandardNetworkModel

/-! # The forward pass and the activations over the values of a C++ `float`

The second model keeps what the exact field leaves out: NaN, the two infinities, the
comparisons that are false on NaN, and a rounding `rnd` of every finite result that is
only assumed to behave as rounding to nearest does (`RoundsLikeFloat`). The sign of a
zero is not kept. `std::exp` is a parameter assumed to behave as `ExpLikeFloat` says. -/

namespace FloatModel

open RetentiveNetworkModel (RetentiveNeuron Link RetentiveNetwork INPUT_COUNT OUTPUT_COUNT
  RESERVED_COUNT)

/-- A value of the C++ `float`: NaN, an infinity, or a finite number. -/
inductive Fp where
  | nan
  | pos_inf
  | neg_inf
  | fin (q : ℚ)
deriving DecidableEq

/-- The comparison `a < b` of two floats: false as soon as one of them is NaN. -/
def Fp.blt : Fp → Fp → Bool
  | .nan, _ => false
  | _, .nan => false
  | .neg_inf, .neg_inf => false
  | .neg_inf, _ => true
  | _, .neg_inf => false
  | .pos_inf, _ => false
  | .fin _, .pos_inf => true
  | .fin a, .fin b => decide (a < b)

/-- The comparison `a <= b` of two floats: false as soon as one of them is NaN. -/
def Fp.ble : Fp → Fp → Bool
  | .nan, _ => false
  | _, .nan => false
  | .neg_inf, _ => true
  | _, .pos_inf => true
  | .pos_inf, _ => false
  | _, .neg_inf => false
  | .fin a, .fin b => decide (a ≤ b)

instance : LT Fp := ⟨fun a b => Fp.blt a b = true⟩

instance : LE Fp := ⟨fun a b => Fp.ble a b = true⟩

instance (a b : Fp) : Decidable (a < b) := inferInstanceAs (Decidable (Fp.blt a b = true))

instance (a b : Fp) : Decidable (a ≤ b) := inferInstanceAs (Decidable (Fp.ble a b = true))

/-- The sign of a float that is not NaN: 1, 0 or -1. -/
def Fp.sign : Fp → Int
  | .nan => 0
  | .pos_inf => 1
  | .neg_inf => -1
  | .fin q => if 0 < q then 1 else if q < 0 then -1 else 0

/-- The infinity of a sign, NaN for the sign 0. -/
def Fp.of_sign (s : Int) : Fp :=
  if s = 0 then .nan else if 0 < s then .pos_inf else .neg_inf

/-- Unary minus. -/
def Fp.neg : Fp → Fp
  | .nan => .nan
  | .pos_inf => .neg_inf
  | .neg_inf => .pos_inf
  | .fin q => .fin (-q)

/-- Float addition: NaN for a NaN operand and for `inf + -inf`, the rounded sum of two
finite operands. -/
def Fp.add (rnd : ℚ → Fp) : Fp → Fp → Fp
  | .nan, _ => .nan
  | _, .nan => .nan
  | .pos_inf, .neg_inf => .nan
  | .neg_inf, .pos_inf => .nan
  | .pos_inf, _ => .pos_inf
  | _, .pos_inf => .pos_inf
  | .neg_inf, _ => .neg_inf
  | _, .neg_inf => .neg_inf
  | .fin a, .fin b => rnd (a + b)

/-- Float multiplication: NaN for a NaN operand and for `inf * 0`, the rounded product
of two finite operands. -/
def Fp.mul (rnd : ℚ → Fp) : Fp → Fp → Fp
  | .nan, _ => .nan
  | _, .nan => .nan
  | .fin a, .fin b => rnd (a * b)
  | a, b => Fp.of_sign (a.sign * b.sign)

/-- Float division: NaN for a NaN operand, for `inf / inf` and for `0 / 0`; a finite
number over an infinity is 0; over the zero divisor the quotient is an infinity. -/
def Fp.div (rnd : ℚ → Fp) : Fp → Fp → Fp
  | .nan, _ => .nan
  | _, .nan => .nan
  | .fin a, .fin b => if b = 0 then Fp.of_sign (Fp.fin a).sign else rnd (a / b)
  | .fin _, _ => .fin 0
  | a, .fin b => if b < 0 then a.neg else a
  | _, _ => .nan

/-- What is assumed of the rounding of finite results: the result is never NaN, the
rounding is monotone, a number `m / 2^k` with `|m| < 2^24` and `k <= 149` is a float and
is not changed, and a result of magnitude at most `2^-150` becomes 0. -/
structure RoundsLikeFloat (rnd : ℚ → Fp) : Prop where
  not_nan : ∀ q, rnd q ≠ Fp.nan
  mono : ∀ p q, p ≤ q → rnd p ≤ rnd q
  exact : ∀ (m : ℤ) (k : ℕ), -(2 ^ 24) < m → m < 2 ^ 24 → k ≤ 149 →
    rnd ((m : ℚ) / 2 ^ k) = Fp.fin ((m : ℚ) / 2 ^ k)
  underflow : ∀ q : ℚ, -(1 / 2 ^ 150) ≤ q → q ≤ 1 / 2 ^ 150 → rnd q = Fp.fin 0

/-- A rounding with the underflow (to 0, at most `2^-150`) and the overflow (to an
infinity, from `2^128`) of the 32-bit float and no rounding error in between. -/
def flush_round (q : ℚ) : Fp :=
  if q ≤ -(2 ^ 128) then .neg_inf
  else if 2 ^ 128 ≤ q then .pos_inf
  else if q < -(1 / 2 ^ 150) then .fin q
  else if 1 / 2 ^ 150 < q then .fin q
  else .fin 0

/-- What is assumed of `std::exp`: NaN exactly on NaN, and otherwise a result that is
0, positive or `+inf`. -/
structure ExpLikeFloat (exp : Fp → Fp) : Prop where
  nan : exp Fp.nan = Fp.nan
  nonneg : ∀ y, y ≠ Fp.nan → exp y ≠ Fp.nan ∧ Fp.fin 0 ≤ exp y

/-- A stand-in for `std::exp` on `float`: 0 for an argument of at most -104 (`e^-104` is
below `2^-150`), `+inf` for an argument of at least 89 (`e^89` is above `2^128`), and
`core x` in between, where `core` stands for the values of the library. -/
def float_exp (core : ℚ → ℚ) : Fp → Fp
  | .nan => .nan
  | .pos_inf => .pos_inf
  | .neg_inf => .fin 0
  | .fin x => if x ≤ -104 then .fin 0 else if 89 ≤ x then .pos_inf else .fin (core x)

/-- The constant `MAX_ACTIVATION_VALUE = 1e3`. -/
def MAX_ACTIVATION_VALUE : Fp := .fin 1000

/-- The float `0.1f`, that is `13421773 / 2^27`. -/
def TENTH : ℚ := 13421773 / 134217728

/-- The function `std::min(a, b)`: `(b < a) ? b : a`. -/
def std_min (a b : Fp) : Fp := if b < a then b else a

/-- The function `std::max(a, b)`: `(a < b) ? b : a`. -/
def std_max (a b : Fp) : Fp := if a < b then b else a

/-- The function `sigmoid_activation`: `1.0f / (1.0f + std::exp(-value))`. -/
def sigmoid_activation (rnd : ℚ → Fp) (exp : Fp → Fp) (value : Fp) : Fp :=
  Fp.div rnd (.fin 1) (Fp.add rnd (.fin 1) (exp value.neg))

/-- The function `leaky_relu_activation`:
`if (value < 0) return value * -0.1f; return value;`. -/
def leaky_relu_activation (rnd : ℚ → Fp) (value : Fp) : Fp :=
  if value < .fin 0 then Fp.mul rnd value (Fp.fin TENTH).neg else value

/-- One iteration of the loop of `apply_output_activation`:
`neurons[i].value = sigmoid_activation(neurons[i].value)`. -/
def activate_at (rnd : ℚ → Fp) (exp : Fp → Fp) (ns : List (RetentiveNeuron Fp)) (i : Nat) :
    Option (List (RetentiveNeuron Fp)) :=
  match ns[i]? with
  | some n => some (ns.set i { n with value := sigmoid_activation rnd exp n.value })
  | none => none

/-- The method `apply_output_activation`: the loop over
`i = INPUT_COUNT, ..., INPUT_COUNT + OUTPUT_COUNT - 1`. -/
def apply_output_activation (rnd : ℚ → Fp) (exp : Fp → Fp) (g : RetentiveNetwork Fp) :
    Option (RetentiveNetwork Fp) :=
  ((List.range' INPUT_COUNT OUTPUT_COUNT).foldlM (activate_at rnd exp) g.neurons).map
    fun ns => { g with neurons := ns }

/-- The sum `neurons[end].value + neurons[start].value * link.weight` of one link update. -/
def link_sum (rnd : ℚ → Fp) (e s : RetentiveNeuron Fp) (link : Link Fp) : Fp :=
  Fp.add rnd e.value (Fp.mul rnd s.value link.weight)

/-- One iteration of the loop of `pass`: the end neuron accumulates
`start.value * weight`, then goes through `std::min` and `std::max`. -/
def pass_link (rnd : ℚ → Fp) (ns : List (RetentiveNeuron Fp)) (link : Link Fp) :
    Option (List (RetentiveNeuron Fp)) :=
  match ns[link.end_neuron_index]?, ns[link.start_neuron_index]? with
  | some e, some s =>
    let v1 := link_sum rnd e s link
    let v2 := std_min v1 MAX_ACTIVATION_VALUE
    let v3 := std_max v2 MAX_ACTIVATION_VALUE.neg
    some (ns.set link.end_neuron_index { e with value := v3 })
  | _, _ => none

/-- The loop of `pass` over the links, in list order. -/
def pass_links (rnd : ℚ → Fp) (ns : List (RetentiveNeuron Fp)) (links : List (Link Fp)) :
    Option (List (RetentiveNeuron Fp)) :=
  links.foldlM (pass_link rnd) ns

/-- The method `RetentiveNetwork::pass`. -/
def pass (rnd : ℚ → Fp) (exp : Fp → Fp) (g : RetentiveNetwork Fp) :
    Option (RetentiveNetwork Fp) :=
  match pass_links rnd g.neurons g.links with
  | some ns => apply_output_activation rnd exp { g with neurons := ns }
  | none => none

/-- The zeroed neuron. -/
def zeroed : RetentiveNeuron Fp := ⟨.fin 0, .fin 0, .fin 0⟩

/-- The reserved neurons, zeroed except that input neuron 0 holds 1000, with the links
`0 -> 5` of weight 1 and `0 -> 6` of weight -1. -/
def saturating_network : RetentiveNetwork Fp :=
  ⟨[⟨.fin 1000, .fin 0, .fin 0⟩, zeroed, zeroed, zeroed, zeroed, zeroed, zeroed, zeroed,
    zeroed, zeroed, zeroed],
   [⟨0, 5, .fin 1⟩, ⟨0, 6, .fin (-1)⟩]⟩

/-- The method `RetentiveNeuron::prepare`: `value *= retention; value += bias`. -/
def neuron_prepare (rnd : ℚ → Fp) (n : RetentiveNeuron Fp) : RetentiveNeuron Fp :=
  let v1 := Fp.mul rnd n.value n.retention
  let v2 := Fp.add rnd v1 n.bias
  { n with value := v2 }

/-- The method `RetentiveNetwork::prepare`: every neuron is prepared in place. -/
def prepare (rnd : ℚ → Fp) (g : RetentiveNetwork Fp) : RetentiveNetwork Fp :=
  { g with neurons := g.neurons.map (neuron_prepare rnd) }

/-- The reserved neurons and two hidden ones of retention 4 and bias 0 that hold the
finite values `2^127` and `-2^127`, with the link `11 -> 12` of weight 1. -/
def growing_network : RetentiveNetwork Fp :=
  ⟨[zeroed, zeroed, zeroed, zeroed, zeroed, zeroed, zeroed, zeroed, zeroed, zeroed, zeroed,
    ⟨.fin (2 ^ 127), .fin 4, .fin 0⟩, ⟨.fin (-(2 ^ 127)), .fin 4, .fin 0⟩],
   [⟨11, 12, .fin 1⟩]⟩

/-- The network `growing_network` after one `prepare`: the two hidden neurons hold
`+inf` and `-inf`. -/
def overflowed_network : RetentiveNetwork Fp :=
  ⟨[zeroed, zeroed, zeroed, zeroed, zeroed, zeroed, zeroed, zeroed, zeroed, zeroed, zeroed,
    ⟨.pos_inf, .fin 4, .fin 0⟩, ⟨.neg_inf, .fin 4, .fin 0⟩],
   [⟨11, 12, .fin 1⟩]⟩

end FloatModel

namespace RetentiveNetworkModel

/-! ## Lemmas and theorems -/

section Proofs

variable {F : Type} [LinearOrderedField F]

theorem std_min_eq_min (a b : F) : std_min a b = min a b := by
  unfold std_min
  split_ifs with h
  · exact (min_eq_right h.le).symm
  · exact (min_eq_left (not_lt.mp h)).symm

theorem std_max_eq_max (a b : F) : std_max a b = max a b := by
  unfold std_max
  split_ifs with h
  · exact (max_eq_right h.le).symm
  · exact (max_eq_left (not_lt.mp h)).symm

theorem std_clamp_eq (v : F) :
    std_max (std_min v MAX_ACTIVATION_VALUE) (-MAX_ACTIVATION_VALUE)
      = clamp v (-MAX_ACTIVATION_VALUE) MAX_ACTIVATION_VALUE := by
  rw [std_min_eq_min, std_max_eq_max, clamp, max_comm]

theorem pass_link_eq_reference (ns : List (RetentiveNeuron F)) (l : Link F)
    (hs : l.start_neuron_index < ns.length) (he : l.end_neuron_index < ns.length) :
    pass_link ns l = some (reference_step ns l) := by
  unfold pass_link reference_step
  rw [List.getElem?_eq_getElem he, List.getElem?_eq_getElem hs]
  simp only [std_clamp_eq]

theorem length_reference_step (ns : List (RetentiveNeuron F)) (l : Link F) :
    (reference_step ns l).length = ns.length := by
  unfold reference_step
  split <;> simp

theorem length_foldl_reference_step (links : List (Link F)) :
    ∀ ns : List (RetentiveNeuron F), (links.foldl reference_step ns).length = ns.length := by
  induction links with
  | nil => intro ns; rfl
  | cons l ls ih => intro ns; rw [List.foldl_cons, ih, length_reference_step]

theorem pass_links_eq_reference (links : List (Link F)) :
    ∀ ns : List (RetentiveNeuron F),
      (∀ l ∈ links, l.start_neuron_index < ns.length ∧ l.end_neuron_index < ns.length) →
      pass_links ns links = some (links.foldl reference_step ns) := by
  induction links with
  | nil => intro ns _; rfl
  | cons l ls ih =>
    intro ns h
    have hl := h l (List.mem_cons_self _ _)
    unfold pass_links
    rw [List.foldlM_cons, pass_link_eq_reference ns l hl.1 hl.2]
    simp only [Option.some_bind, Option.bind_eq_bind, List.foldl_cons]
    apply ih
    intro l2 hl2
    rw [length_reference_step]
    exact h l2 (List.mem_cons_of_mem _ hl2)

theorem activate_at_eq (exp : F → F) (ns : List (RetentiveNeuron F)) (i : Nat)
    (h : i < ns.length) :
    activate_at exp ns i =
      some (ns.set i { ns[i] with value := sigmoid_activation exp ns[i].value }) := by
  unfold activate_at
  rw [List.getElem?_eq_getElem h]

theorem activate_range (exp : F → F) :
    ∀ (k a : Nat) (ns : List (RetentiveNeuron F)), a + k ≤ ns.length →
      (List.range' a k).foldlM (activate_at exp) ns =
        some (ns.mapIdx fun i n =>
          if a ≤ i ∧ i < a + k then { n with value := 1 / (1 + exp (-n.value)) } else n) := by
  intro k
  induction k with
  | zero =>
    intro a ns _
    simp only [List.range'_zero, List.foldlM_nil, add_zero]
    congr 1
    apply List.ext_getElem?
    intro i
    rw [List.getElem?_mapIdx]
    have : ¬ (a ≤ i ∧ i < a) := by omega
    simp only [this, if_false]
    cases ns[i]? <;> rfl
  | succ k ih =>
    intro a ns h
    have ha : a < ns.length := by omega
    rw [List.range'_succ, List.foldlM_cons, activate_at_eq exp ns a ha]
    simp only [Option.some_bind, Option.bind_eq_bind]
    rw [ih (a + 1) _ (by rw [List.length_set]; omega)]
    congr 1
    apply List.ext_getElem?
    intro i
    rw [List.getElem?_mapIdx, List.getElem?_mapIdx, List.getElem?_set]
    by_cases hia : a = i
    · subst hia
      have c1 : ¬ (a + 1 ≤ a ∧ a < a + 1 + k) := by omega
      have c2 : (a ≤ a ∧ a < a + (k + 1)) := by omega
      simp only [ha, if_true, c1, c2, if_false, Option.map_some', sigmoid_activation,
        List.getElem?_eq_getElem, and_self]
    · have c : (a + 1 ≤ i ∧ i < a + 1 + k) ↔ (a ≤ i ∧ i < a + (k + 1)) := by omega
      simp only [hia, if_false, c]

theorem apply_output_activation_eq (exp : F → F) (g : RetentiveNetwork F)
    (h : RESERVED_COUNT ≤ g.neurons.length) :
    g.apply_output_activation exp =
      some { g with neurons := reference_activation exp g.neurons } := by
  unfold RetentiveNetwork.apply_output_activation reference_activation
  rw [activate_range exp OUTPUT_COUNT INPUT_COUNT g.neurons h]
  rfl

theorem pass_eq_reference (exp : F → F) (g : RetentiveNetwork F)
    (h : RESERVED_COUNT ≤ g.neurons.length) (hv : g.ValidLinks) :
    g.pass exp = some (reference_pass exp g) := by
  unfold RetentiveNetwork.pass
  rw [pass_links_eq_reference g.links g.neurons hv]
  simp only
  rw [apply_output_activation_eq exp _ (by simpa [length_foldl_reference_step] using h)]
  rfl


/-- C1: `RetentiveNetwork::prepare` leaves every neuron with
`value * retention + bias`, computed from that neuron alone (position `i` of the
result is a function of position `i` of the input), and keeps every retention, every
bias, the links and both counts. -/
theorem prepare_decays_each_neuron (g : RetentiveNetwork F) :
    g.prepare.links = g.links ∧ g.prepare.neurons.length = g.neurons.length ∧
    ∀ i : Nat, g.prepare.neurons[i]? =
      (g.neurons[i]?).map fun n => ⟨n.value * n.retention + n.bias, n.retention, n.bias⟩ := by
  refine ⟨rfl, ?_, ?_⟩
  · simp [RetentiveNetwork.prepare]
  · intro i
    simp only [RetentiveNetwork.prepare, List.getElem?_map]
    rfl

theorem reference_step_out_of_range (ns : List (RetentiveNeuron F)) (l : Link F)
    (h : ¬ (l.start_neuron_index < ns.length ∧ l.end_neuron_index < ns.length)) :
    reference_step ns l = ns := by
  unfold reference_step
  by_cases he : l.end_neuron_index < ns.length
  · have hs : ns.length ≤ l.start_neuron_index := by
      by_contra hc; exact h ⟨by omega, he⟩
    rw [List.getElem?_eq_none hs]
    split <;> simp_all
  · rw [List.getElem?_eq_none (by omega)]

theorem reference_step_in_range (ns : List (RetentiveNeuron F)) (l : Link F)
    (hs : l.start_neuron_index < ns.length) (he : l.end_neuron_index < ns.length) :
    reference_step ns l = ns.set l.end_neuron_index
      { ns[l.end_neuron_index] with
        value := clamp (ns[l.end_neuron_index].value + ns[l.start_neuron_index].value * l.weight)
          (-MAX_ACTIVATION_VALUE) MAX_ACTIVATION_VALUE } := by
  unfold reference_step
  rw [List.getElem?_eq_getElem he, List.getElem?_eq_getElem hs]

theorem getElem_eq_of_getElem?_eq {α : Type} (xs ys : List α) (i : Nat) (hx : i < xs.length)
    (hy : i < ys.length) (h : ys[i]? = xs[i]?) : ys[i] = xs[i] := by
  rw [List.getElem?_eq_getElem hx, List.getElem?_eq_getElem hy] at h
  exact Option.some.inj h

theorem reference_step_agree (ns ns1 : List (RetentiveNeuron F)) (seen : List Nat) (l : Link F)
    (hlen : ns1.length = ns.length) (hs : ∀ i, i ∉ seen → ns1[i]? = ns[i]?) :
    ∀ i, i ∉ (if l.start_neuron_index ∈ seen then l.end_neuron_index :: seen else seen) →
      (reference_step ns1 l)[i]? = (reference_step ns l)[i]? := by
  intro i hi
  have hiS : i ∉ seen := by
    split_ifs at hi with hc
    · exact fun hm => hi (List.mem_cons_of_mem _ hm)
    · exact hi
  by_cases hr : l.start_neuron_index < ns.length ∧ l.end_neuron_index < ns.length
  · have hr1 : l.start_neuron_index < ns1.length ∧ l.end_neuron_index < ns1.length := by
      rw [hlen]; exact hr
    rw [reference_step_in_range ns l hr.1 hr.2, reference_step_in_range ns1 l hr1.1 hr1.2]
    by_cases hie : l.end_neuron_index = i
    · subst hie
      have hst : l.start_neuron_index ∉ seen := by
        intro hm
        rw [if_pos hm] at hi
        exact hi (List.mem_cons_self _ _)
      have e1 := getElem_eq_of_getElem?_eq ns ns1 _ hr.2 hr1.2 (hs _ hiS)
      have e2 := getElem_eq_of_getElem?_eq ns ns1 _ hr.1 hr1.1 (hs _ hst)
      rw [List.getElem?_set_self hr.2, List.getElem?_set_self hr1.2, e1, e2]
    · rw [List.getElem?_set_ne hie, List.getElem?_set_ne hie]
      exact hs i hiS
  · have hr1 : ¬ (l.start_neuron_index < ns1.length ∧ l.end_neuron_index < ns1.length) := by
      rw [hlen]; exact hr
    rw [reference_step_out_of_range ns l hr, reference_step_out_of_range ns1 l hr1]
    exact hs i hiS

theorem foldl_reference_step_agree (links : List (Link F)) :
    ∀ (ns ns1 : List (RetentiveNeuron F)) (seen : List Nat),
      ns1.length = ns.length → (∀ i, i ∉ seen → ns1[i]? = ns[i]?) →
      ∀ c, c ∉ links.foldl
          (fun seen link => if link.start_neuron_index ∈ seen then link.end_neuron_index :: seen
            else seen) seen →
        (links.foldl reference_step ns1)[c]? = (links.foldl reference_step ns)[c]? := by
  induction links with
  | nil => intro ns ns1 seen _ hs c hc; exact hs c hc
  | cons l ls ih =>
    intro ns ns1 seen hlen hs c hc
    rw [List.foldl_cons] at hc ⊢
    rw [List.foldl_cons]
    exact ih (reference_step ns l) (reference_step ns1 l) _
      (by rw [length_reference_step, length_reference_step, hlen])
      (reference_step_agree ns ns1 seen l hlen hs) c hc

/-- C6 (amended): within one `pass`, the value held by neuron `a` influences only the
neurons of `reached links a`, the ends of chains of links taken in list order: two
networks equal except for neuron `a` agree after `pass` on every neuron outside it. -/
theorem pass_influence_follows_list_order (exp : F → F) (g g1 : RetentiveNetwork F) (a : Nat)
    (h : RESERVED_COUNT ≤ g.neurons.length) (hv : g.ValidLinks)
    (hlinks : g1.links = g.links) (hlen : g1.neurons.length = g.neurons.length)
    (hsame : ∀ i, i ≠ a → g1.neurons[i]? = g.neurons[i]?) :
    ∃ r r1, g.pass exp = some r ∧ g1.pass exp = some r1 ∧
      ∀ c, c ∉ reached g.links a → r1.neurons[c]? = r.neurons[c]? := by
  have hv1 : g1.ValidLinks := by
    intro l hl
    rw [hlinks] at hl
    rw [hlen]
    exact hv l hl
  refine ⟨reference_pass exp g, reference_pass exp g1, pass_eq_reference exp g h hv,
    pass_eq_reference exp g1 (by omega) hv1, ?_⟩
  intro c hc
  have key := foldl_reference_step_agree g.links g.neurons g1.neurons [a] hlen
    (fun i hi => hsame i (by simpa using hi)) c hc
  simp only [reference_pass, reference_activation, List.getElem?_mapIdx, hlinks, key]

theorem chain_network_valid (v : F) : (chain_network F v).ValidLinks := by
  intro l hl
  simp only [chain_network, List.mem_cons, List.mem_singleton, List.not_mem_nil, or_false] at hl
  rcases hl with rfl | rfl <;> simp [chain_network, fourteen_neurons]

theorem reversed_chain_network_valid (v : F) : (reversed_chain_network F v).ValidLinks := by
  intro l hl
  simp only [reversed_chain_network, List.mem_cons, List.mem_singleton, List.not_mem_nil,
    or_false] at hl
  rcases hl with rfl | rfl <;> simp [reversed_chain_network, fourteen_neurons]

/-- C6 (counterexample): with links `11 -> 12` then `12 -> 13`, the value of neuron 13
after one `pass` is 0 when neuron 11 held 0 and 1 when it held 1: two hops in one call. -/
theorem two_hops_within_one_pass :
    ((chain_network ℝ 0).pass Real.exp).map
        (fun r => (r.neurons[13]?).map RetentiveNeuron.value) = some (some 0) ∧
    ((chain_network ℝ 1).pass Real.exp).map
        (fun r => (r.neurons[13]?).map RetentiveNeuron.value) = some (some 1) := by
  rw [pass_eq_reference _ _ (by decide) (chain_network_valid 0),
    pass_eq_reference _ _ (by decide) (chain_network_valid 1)]
  constructor <;>
  norm_num [reference_pass, reference_activation, reference_step, chain_network,
    fourteen_neurons, clamp, MAX_ACTIVATION_VALUE, INPUT_COUNT, OUTPUT_COUNT]

/-- Instance of C6 (amended): with `12 -> 13` listed before `11 -> 12`, neuron 13 is outside
`reached links 11`, so its value after `pass` is the same whether neuron 11 held 0 or 1. -/
theorem pass_influence_follows_list_order_witness :
    (RESERVED_COUNT ≤ (reversed_chain_network ℝ 0).neurons.length ∧
      (reversed_chain_network ℝ 0).ValidLinks ∧
      (reversed_chain_network ℝ 1).links = (reversed_chain_network ℝ 0).links ∧
      (reversed_chain_network ℝ 1).neurons.length = (reversed_chain_network ℝ 0).neurons.length ∧
      ∀ i, i ≠ 11 →
        (reversed_chain_network ℝ 1).neurons[i]? = (reversed_chain_network ℝ 0).neurons[i]?) ∧
    13 ∉ reached (reversed_chain_network ℝ 0).links 11 ∧
    ∃ r r1, (reversed_chain_network ℝ 0).pass Real.exp = some r ∧
      (reversed_chain_network ℝ 1).pass Real.exp = some r1 ∧
      ∀ c, c ∉ reached (reversed_chain_network ℝ 0).links 11 → r1.neurons[c]? = r.neurons[c]? := by
  have hs : ∀ i, i ≠ 11 →
      (reversed_chain_network ℝ 1).neurons[i]? = (reversed_chain_network ℝ 0).neurons[i]? := by
    intro i hi
    simp only [reversed_chain_network, fourteen_neurons]
    rcases Nat.lt_or_ge i 14 with h | h
    · interval_cases i <;> first | rfl | exact absurd rfl hi
    · rw [List.getElem?_eq_none (by simpa using h), List.getElem?_eq_none (by simpa using h)]
  exact ⟨⟨by decide, reversed_chain_network_valid 0, rfl, rfl, hs⟩, by decide,
    pass_influence_follows_list_order Real.exp _ _ 11 (by decide)
      (reversed_chain_network_valid 0) rfl rfl hs⟩


theorem push_zeroed_eq (count : Nat) :
    ∀ ns : List (RetentiveNeuron F), push_zeroed count ns = ns ++ List.replicate count ⟨0, 0, 0⟩ := by
  induction count with
  | zero => intro ns; simp [push_zeroed]
  | succ k ih =>
    intro ns
    rw [push_zeroed, ih, List.append_assoc]
    rfl

theorem add_hidden_neurons_links (g : RetentiveNetwork F) (draws : Nat → F × F) (k : Nat) :
    (g.add_hidden_neurons draws k).links = g.links := by
  induction k with
  | zero => rfl
  | succ k ih => simpa [RetentiveNetwork.add_hidden_neurons, RetentiveNetwork.add_hidden_neuron] using ih

theorem add_hidden_neurons_neurons (g : RetentiveNetwork F) (draws : Nat → F × F) (k : Nat) :
    (g.add_hidden_neurons draws k).neurons =
      g.neurons ++ (List.range k).map fun i => ⟨0, (draws i).1, (draws i).2⟩ := by
  induction k with
  | zero => simp [RetentiveNetwork.add_hidden_neurons]
  | succ k ih =>
    simp only [RetentiveNetwork.add_hidden_neurons, RetentiveNetwork.add_hidden_neuron, ih,
      List.range_succ, List.map_append, List.map_cons, List.map_nil, List.append_assoc]

theorem initialize_fresh (d : InitDraws F) (hl : d.link_count = 0) :
    ((RetentiveNetwork.fresh F).initialize_network d).links = [] ∧
    ((RetentiveNetwork.fresh F).initialize_network d).neurons =
      List.replicate RESERVED_COUNT ⟨0, 0, 0⟩ ++
        (List.range d.hidden_count).map fun i => ⟨0, (d.hidden i).1, (d.hidden i).2⟩ := by
  unfold RetentiveNetwork.initialize_network
  simp only [hl, RetentiveNetwork.add_random_links, add_hidden_neurons_links,
    add_hidden_neurons_neurons, RetentiveNetwork.add_reserved_neurons, push_zeroed_eq,
    RetentiveNetwork.fresh, List.nil_append, true_and]
  rfl

/-- C7: for every draw within the two configured ranges, `initialize` on a fresh
network yields between `RESERVED_COUNT + 3` and `RESERVED_COUNT + 10` neurons, no link,
and zeroed reserved neurons. -/
theorem initialize_neuron_and_link_counts (d : InitDraws F)
    (hn : CanDraw initial_neuron_count_distribution d.hidden_count)
    (hl : CanDraw initial_random_link_count_distribution d.link_count) :
    RESERVED_COUNT + 3 ≤ ((RetentiveNetwork.fresh F).initialize_network d).neurons.length ∧
    ((RetentiveNetwork.fresh F).initialize_network d).neurons.length ≤ RESERVED_COUNT + 10 ∧
    ((RetentiveNetwork.fresh F).initialize_network d).links.length = 0 ∧
    ∀ i, i < RESERVED_COUNT →
      ((RetentiveNetwork.fresh F).initialize_network d).neurons[i]? = some ⟨0, 0, 0⟩ := by
  have hl0 : d.link_count = 0 := Nat.le_zero.mp hl.2
  obtain ⟨h1, h2⟩ := initialize_fresh d hl0
  have hn1 : 3 ≤ d.hidden_count := hn.1
  have hn2 : d.hidden_count ≤ 10 := hn.2
  rw [h1, h2]
  refine ⟨?_, ?_, rfl, ?_⟩
  · simp; omega
  · simp; omega
  · intro i hi
    rw [List.getElem?_append_left (by simpa using hi)]
    simp [hi]

/-- Instance of C7: four hidden neurons drawn, no link. -/
theorem initialize_neuron_and_link_counts_witness :
    (CanDraw initial_neuron_count_distribution (sample_init_draws ℚ).hidden_count ∧
      CanDraw initial_random_link_count_distribution (sample_init_draws ℚ).link_count) ∧
    (RESERVED_COUNT + 3 ≤ ((RetentiveNetwork.fresh ℚ).initialize_network (sample_init_draws ℚ)).neurons.length ∧
    ((RetentiveNetwork.fresh ℚ).initialize_network (sample_init_draws ℚ)).neurons.length ≤ RESERVED_COUNT + 10 ∧
    ((RetentiveNetwork.fresh ℚ).initialize_network (sample_init_draws ℚ)).links.length = 0 ∧
    ∀ i, i < RESERVED_COUNT →
      ((RetentiveNetwork.fresh ℚ).initialize_network (sample_init_draws ℚ)).neurons[i]? = some ⟨0, 0, 0⟩) :=
  ⟨⟨by decide, by decide⟩,
    initialize_neuron_and_link_counts (sample_init_draws ℚ) (by decide) (by decide)⟩

theorem foldl_push_back {α : Type} (f : α → α) (hf : ∀ x, f x = x) (xs : List α) :
    ∀ acc : List α, xs.foldl (fun acc x => acc ++ [f x]) acc = acc ++ xs := by
  induction xs with
  | nil => intro acc; simp
  | cons x xs ih => intro acc; rw [List.foldl_cons, ih, hf]; simp

theorem copy_structure_eq_append {K : Type} (self : RetentiveNetwork K)
    (parent_neurons : List (RetentiveNeuron K)) (parent_links : List (Link K)) :
    self.copy_structure parent_neurons parent_links =
      ⟨self.neurons ++ parent_neurons, self.links ++ parent_links⟩ := by
  unfold RetentiveNetwork.copy_structure
  rw [foldl_push_back (fun n : RetentiveNeuron K => ⟨n.value, n.retention, n.bias⟩)
      (fun _ => rfl),
    foldl_push_back (fun l : Link K => ⟨l.start_neuron_index, l.end_neuron_index, l.weight⟩)
      (fun _ => rfl)]

theorem mutate_offspring_parent (p p1 : Population F) (d : MutateDraws F)
    (h : p.mutate_offspring d = some p1) : p1.parent = p.parent := by
  unfold Population.mutate_offspring at h
  cases hm : p.offspring.mutate d with
  | none => rw [hm] at h; cases h
  | some o =>
    rw [hm] at h
    cases h
    rfl

theorem mutate_without_removal (g : RetentiveNetwork F) (d : MutateDraws F)
    (h : REMOVE_RANDOM_LINK_CHANCE < d.remove_roll) : ∃ g1, g.mutate d = some g1 := by
  unfold RetentiveNetwork.mutate
  simp only [not_le.mpr h, if_false]
  exact ⟨_, rfl⟩

theorem remove_random_link_in_range {K : Type} (g : RetentiveNetwork K) (k : Nat)
    (h : k < g.links.length) :
    g.remove_random_link k = some ⟨g.neurons, g.links.eraseIdx k⟩ := by
  unfold RetentiveNetwork.remove_random_link
  rw [if_pos h]

/-- C9 (the code at the failing input): on a network without links the only draw of
`link_distribution` is 0, and `links.erase(links.begin() + 0)` is an erase outside the
vector: no guard, no error signal. -/
theorem remove_random_link_without_links_out_of_range :
    (linkless_network ℚ).links = [] ∧
    (linkless_network ℚ).link_distribution = (0, 0) ∧
    (linkless_network ℚ).remove_random_link 0 = none := by
  refine ⟨rfl, rfl, rfl⟩

/-- C10 (the code at the failing input): with one link, `link_distribution` can draw 1,
one past the last position, and the erase is then outside the vector. -/
theorem remove_random_link_draw_past_the_end :
    (scenario_network ℚ).links.length = 1 ∧
    CanDraw (scenario_network ℚ).link_distribution 1 ∧
    (scenario_network ℚ).remove_random_link 1 = none := by
  refine ⟨rfl, by decide, rfl⟩


theorem to_ushort_le (n : Nat) : to_ushort n ≤ n := Nat.mod_le n 65536

theorem add_random_link_valid {K : Type} (g : RetentiveNetwork K) (s e : Nat) (w : K)
    (hv : g.ValidLinks) (hs : CanDrawInt g.neuron_distribution s)
    (he : CanDrawInt g.neuron_distribution e) : (g.add_random_link s e w).ValidLinks := by
  have hs2 : (s : Int) ≤ (g.neurons.length : Int) - 1 := hs.2
  have he2 : (e : Int) ≤ (g.neurons.length : Int) - 1 := he.2
  have h1 := to_ushort_le s
  have h2 := to_ushort_le e
  intro l hl
  simp only [RetentiveNetwork.add_random_link, List.mem_append, List.mem_singleton] at hl
  rcases hl with hl | rfl
  · exact hv l hl
  · simp only [RetentiveNetwork.add_random_link]
    constructor
    · omega
    · split_ifs <;> omega

theorem remove_random_link_valid {K : Type} (g g1 : RetentiveNetwork K) (k : Nat)
    (hv : g.ValidLinks) (hk : g.remove_random_link k = some g1) :
    g1.ValidLinks ∧ g1.neurons = g.neurons := by
  unfold RetentiveNetwork.remove_random_link at hk
  split_ifs at hk with h
  cases hk
  exact ⟨fun l hl => hv l (List.mem_of_mem_eraseIdx hl), rfl⟩

theorem reachable_invariant (exp : F → F) (g : RetentiveNetwork F) (h : Reachable exp g) :
    RESERVED_COUNT ≤ g.neurons.length ∧ g.ValidLinks := by
  induction h with
  | init d hn hl =>
    obtain ⟨h1, h2⟩ := initialize_fresh d (Nat.le_zero.mp hl.2)
    constructor
    · rw [h2]; simp
    · intro l hm; rw [h1] at hm; cases hm
  | hidden g r b _ ih =>
    constructor
    · simp only [RetentiveNetwork.add_hidden_neuron, List.length_append, List.length_singleton]
      omega
    · intro l hl
      have := ih.2 l hl
      simp only [RetentiveNetwork.add_hidden_neuron, List.length_append, List.length_singleton]
      omega
  | link g s e w _ hs he ih =>
    exact ⟨ih.1, add_random_link_valid g s e w ih.2 hs he⟩
  | removal g g1 k _ hk ih =>
    obtain ⟨hv, hn⟩ := remove_random_link_valid g g1 k ih.2 hk
    exact ⟨by rw [hn]; exact ih.1, hv⟩
  | prepared g _ ih =>
    constructor
    · simpa [RetentiveNetwork.prepare] using ih.1
    · intro l hl
      simpa [RetentiveNetwork.prepare] using ih.2 l hl
  | passed g g1 _ hp ih =>
    rw [pass_eq_reference exp g ih.1 ih.2] at hp
    cases hp
    have hlen : (reference_pass exp g).neurons.length = g.neurons.length := by
      simp [reference_pass, reference_activation, length_foldl_reference_step]
    constructor
    · rw [hlen]; exact ih.1
    · intro l hl
      rw [hlen]
      exact ih.2 l hl

/-- C11: every genotype reached from `initialize` by `add_hidden_neuron`,
`add_random_link`, the removal of an existing link, `prepare` and `pass` has at least
`RESERVED_COUNT` neurons and links whose two endpoints are below the neuron count, so
that `pass` (with `apply_output_activation`) stays inside the vector and returns. -/
theorem reachable_links_valid (exp : F → F) (g : RetentiveNetwork F) (h : Reachable exp g) :
    RESERVED_COUNT ≤ g.neurons.length ∧
    (∀ l ∈ g.links, l.start_neuron_index < g.neurons.length ∧
      l.end_neuron_index < g.neurons.length) ∧
    ∃ g1, g.pass exp = some g1 :=
  ⟨(reachable_invariant exp g h).1, (reachable_invariant exp g h).2,
    _, pass_eq_reference exp g (reachable_invariant exp g h).1 (reachable_invariant exp g h).2⟩


theorem mem_mutate_links (d : MutateDraws F) (links : List (Link F)) (l : Link F)
    (h : l ∈ mutate_links d links) :
    ∃ l0 ∈ links, l.start_neuron_index = l0.start_neuron_index ∧
      l.end_neuron_index = l0.end_neuron_index := by
  obtain ⟨i, hi⟩ := List.mem_iff_getElem?.mp h
  unfold mutate_links at hi
  rw [List.getElem?_mapIdx] at hi
  cases hl : links[i]? with
  | none => rw [hl] at hi; cases hi
  | some l0 =>
    rw [hl] at hi
    simp only [Option.map_some', Option.some.injEq] at hi
    subst hi
    exact ⟨l0, List.mem_iff_getElem?.mpr ⟨i, hl⟩, rfl, rfl⟩

theorem add_random_link_self_loop {K : Type} (g : RetentiveNetwork K) (s e : Nat) (w : K)
    (hg : ∀ l ∈ g.links, l.start_neuron_index = l.end_neuron_index → l.start_neuron_index = 0) :
    ∀ l ∈ (g.add_random_link s e w).links,
      l.start_neuron_index = l.end_neuron_index → l.start_neuron_index = 0 := by
  intro l hl
  simp only [RetentiveNetwork.add_random_link, List.mem_append, List.mem_singleton] at hl
  rcases hl with hl | rfl
  · exact hg l hl
  · simp only
    split_ifs with hc
    · exact fun h => h
    · exact fun h => absurd h hc

theorem remove_random_link_links {K : Type} (g g1 : RetentiveNetwork K) (k : Nat)
    (hk : g.remove_random_link k = some g1) : ∀ l ∈ g1.links, l ∈ g.links := by
  unfold RetentiveNetwork.remove_random_link at hk
  split_ifs at hk with h
  cases hk
  exact fun l hl => List.mem_of_mem_eraseIdx hl

theorem mutate_eq_structural (g : RetentiveNetwork F) (d : MutateDraws F) :
    g.mutate d = (g.mutate_structural d).map
      fun g3 => ⟨mutate_neurons d g3.neurons, mutate_links d g3.links⟩ := by
  unfold RetentiveNetwork.mutate RetentiveNetwork.mutate_structural
  simp only
  split <;> rename_i heq <;> rw [heq] <;> rfl

theorem mutate_structural_self_loop (g g3 : RetentiveNetwork F) (d : MutateDraws F)
    (hg : ∀ l ∈ g.links, l.start_neuron_index = l.end_neuron_index → l.start_neuron_index = 0)
    (h : g.mutate_structural d = some g3) :
    ∀ l ∈ g3.links, l.start_neuron_index = l.end_neuron_index → l.start_neuron_index = 0 := by
  unfold RetentiveNetwork.mutate_structural at h
  simp only at h
  have h1 : ∀ l ∈ (if d.neuron_roll ≤ NEW_NEURON_CHANCE then
      g.add_hidden_neuron d.new_retention d.new_bias else g).links,
      l.start_neuron_index = l.end_neuron_index → l.start_neuron_index = 0 := by
    split_ifs
    · exact hg
    · exact hg
  generalize (if d.neuron_roll ≤ NEW_NEURON_CHANCE then
      g.add_hidden_neuron d.new_retention d.new_bias else g) = g1 at h h1
  have h2 : ∀ l ∈ (if d.link_roll ≤ NEW_RANDOM_LINK_CHANCE then
      g1.add_random_link d.link_start d.link_end d.link_weight else g1).links,
      l.start_neuron_index = l.end_neuron_index → l.start_neuron_index = 0 := by
    split_ifs
    · exact add_random_link_self_loop _ _ _ _ h1
    · exact h1
  by_cases hr : d.remove_roll ≤ REMOVE_RANDOM_LINK_CHANCE
  · rw [if_pos hr] at h
    intro l hl
    exact h2 l (remove_random_link_links _ _ _ h l hl)
  · rw [if_neg hr] at h
    cases h
    exact h2

theorem reachable_by_mutation_invariant (g : RetentiveNetwork F) (h : ReachableByMutation g) :
    ∀ l ∈ g.links, l.start_neuron_index = l.end_neuron_index → l.start_neuron_index = 0 := by
  induction h with
  | init d hl =>
    obtain ⟨h1, _⟩ := initialize_fresh d (Nat.le_zero.mp hl.2)
    intro l hm; rw [h1] at hm; cases hm
  | mutated g g1 d _ hm ih =>
    rw [mutate_eq_structural] at hm
    cases hs : g.mutate_structural d with
    | none => rw [hs] at hm; cases hm
    | some g3 =>
      rw [hs] at hm
      cases hm
      intro l hl
      obtain ⟨l0, hl0, e1, e2⟩ := mem_mutate_links d g3.links l hl
      rw [e1, e2]
      exact mutate_structural_self_loop g g3 d ih hs l0 hl0
  | link g s e w _ ih => exact add_random_link_self_loop g s e w ih
  | removal g g1 k _ hk ih =>
    intro l hl
    exact ih l (remove_random_link_links g g1 k hk l hl)

/-- C16: in every genotype reached from `initialize` by `mutate`, `add_random_link`
and removals of existing links, a link with start = end has start = end = 0; and the
link that `add_random_link` appends next has that property for every draw. -/
theorem self_loops_only_on_neuron_zero (g : RetentiveNetwork F) (h : ReachableByMutation g) :
    (∀ l ∈ g.links, l.start_neuron_index = l.end_neuron_index →
      l.start_neuron_index = 0 ∧ l.end_neuron_index = 0) ∧
    ∀ (s e : Nat) (w : F), ∃ l, (g.add_random_link s e w).links = g.links ++ [l] ∧
      (l.start_neuron_index = l.end_neuron_index →
        l.start_neuron_index = 0 ∧ l.end_neuron_index = 0) := by
  constructor
  · intro l hl he
    have h0 := reachable_by_mutation_invariant g h l hl he
    exact ⟨h0, by rw [← he, h0]⟩
  · intro s e w
    refine ⟨_, rfl, ?_⟩
    simp only
    split_ifs with hc
    · intro h; exact ⟨h, rfl⟩
    · intro h; exact absurd h hc


theorem linkless_network_valid {K : Type} [LinearOrderedField K] :
    (linkless_network K).ValidLinks := by
  intro l hl; cases hl

/-- C12 (the code at the failing input): on a structurally valid network without
links, a `mutate` call whose removal step fires draws the index 0 and erases outside the
empty link vector: `mutate` does not complete. -/
theorem mutate_removal_on_linkless_network :
    RESERVED_COUNT ≤ (linkless_network ℚ).neurons.length ∧
    (linkless_network ℚ).ValidLinks ∧
    (removal_draws ℚ).remove_roll ≤ REMOVE_RANDOM_LINK_CHANCE ∧
    CanDraw (linkless_network ℚ).link_distribution (removal_draws ℚ).remove_index ∧
    (linkless_network ℚ).mutate (removal_draws ℚ) = none := by
  refine ⟨by decide, linkless_network_valid, ?_, by decide, ?_⟩
  · norm_num [removal_draws, REMOVE_RANDOM_LINK_CHANCE]
  · norm_num [RetentiveNetwork.mutate, removal_draws, REMOVE_RANDOM_LINK_CHANCE,
      NEW_NEURON_CHANCE, NEW_RANDOM_LINK_CHANCE, RetentiveNetwork.remove_random_link,
      linkless_network]

/-- C13 (amended): for a genotype of at most 65536 neurons and draws `s`, `e` within
`neuron_distribution` (so at least one neuron), `add_random_link` keeps the neurons and
appends the one link `(s, e, w)`, or `(s, 0, w)` when `s = e`, after the existing links. -/
theorem add_random_link_appends_one_link {K : Type} (g : RetentiveNetwork K) (s e : Nat) (w : K)
    (hlen : g.neurons.length ≤ 65536)
    (hs : CanDrawInt g.neuron_distribution s) (he : CanDrawInt g.neuron_distribution e) :
    (g.add_random_link s e w).neurons = g.neurons ∧
    (g.add_random_link s e w).links = g.links ++ [⟨s, if s = e then 0 else e, w⟩] := by
  have hs2 : (s : Int) ≤ (g.neurons.length : Int) - 1 := hs.2
  have he2 : (e : Int) ≤ (g.neurons.length : Int) - 1 := he.2
  have e1 : to_ushort s = s := Nat.mod_eq_of_lt (by omega)
  have e2 : to_ushort e = e := Nat.mod_eq_of_lt (by omega)
  simp only [RetentiveNetwork.add_random_link, e1, e2, and_self]

/-- C13 (counterexample): with 65537 neurons the draws 65536 and 0 are possible and
differ, yet the appended link is `(0, 0, 1)`: the index 65536 does not fit the
`unsigned short` start, which becomes 0 and then collides with the end. -/
theorem add_random_link_wraps_wide_index :
    CanDrawInt (wide_network ℚ).neuron_distribution 65536 ∧
    CanDrawInt (wide_network ℚ).neuron_distribution 0 ∧
    ((wide_network ℚ).add_random_link 65536 0 1).links = [⟨0, 0, 1⟩] ∧
    ((wide_network ℚ).add_random_link 65536 0 1).links ≠ [⟨65536, 0, 1⟩] := by
  have hlen : (wide_network ℚ).neurons.length = 65537 := by
    simp only [wide_network, List.length_replicate]
  have hlinks : ((wide_network ℚ).add_random_link 65536 0 1).links = [⟨0, 0, 1⟩] := by
    simp only [RetentiveNetwork.add_random_link, wide_network, to_ushort, List.nil_append]
    norm_num
  refine ⟨?_, ?_, hlinks, ?_⟩
  · simp only [CanDrawInt, RetentiveNetwork.neuron_distribution, hlen]
    norm_num
  · simp only [CanDrawInt, RetentiveNetwork.neuron_distribution, hlen]
    norm_num
  · rw [hlinks]
    simp

/-- C14: when the three structural steps of `mutate` leave the network `g3`, `mutate`
returns a network with the same counts in which link `i` of `g3` has kept its endpoints
and has weight `weight * m + a` for its own draws, and neuron `i` of `g3` has kept its
value and has `bias * m_b + a_b` and `retention * m_r + a_r` for its own draws. -/
theorem mutate_parametric_steps (g g3 : RetentiveNetwork F) (d : MutateDraws F)
    (h : g.mutate_structural d = some g3) :
    ∃ g1, g.mutate d = some g1 ∧
      g1.links.length = g3.links.length ∧ g1.neurons.length = g3.neurons.length ∧
      (∀ i : Nat, g1.links[i]? = (g3.links[i]?).map fun l =>
        (⟨l.start_neuron_index, l.end_neuron_index,
          l.weight * d.weight_mult i + d.weight_add i⟩ : Link F)) ∧
      (∀ i : Nat, g1.neurons[i]? = (g3.neurons[i]?).map fun n =>
        (⟨n.value, n.retention * d.retention_mult i + d.retention_add i,
          n.bias * d.bias_mult i + d.bias_add i⟩ : RetentiveNeuron F)) := by
  refine ⟨⟨mutate_neurons d g3.neurons, mutate_links d g3.links⟩, ?_, ?_, ?_, ?_, ?_⟩
  · rw [mutate_eq_structural, h]; rfl
  · simp [mutate_links]
  · simp [mutate_neurons]
  · intro i
    simp only [mutate_links, List.getElem?_mapIdx]
  · intro i
    simp only [mutate_neurons, List.getElem?_mapIdx]

/-- C17: `copy_structure` appends: the target's neurons become `N ++ PN` and its links
`L ++ PL`; the result equals the parent's sequences exactly when the target was empty. -/
theorem copy_structure_appends {K : Type} (target : RetentiveNetwork K)
    (parent_neurons : List (RetentiveNeuron K)) (parent_links : List (Link K)) :
    (target.copy_structure parent_neurons parent_links).neurons =
      target.neurons ++ parent_neurons ∧
    (target.copy_structure parent_neurons parent_links).links =
      target.links ++ parent_links ∧
    (target.copy_structure parent_neurons parent_links = ⟨parent_neurons, parent_links⟩ ↔
      target.neurons = [] ∧ target.links = []) := by
  rw [copy_structure_eq_append]
  refine ⟨rfl, rfl, ?_⟩
  constructor
  · intro h
    injection h with h1 h2
    exact ⟨List.append_left_eq_self.mp h1, List.append_left_eq_self.mp h2⟩
  · rintro ⟨h1, h2⟩
    rw [h1, h2]
    rfl

theorem reference_step_other (ns : List (RetentiveNeuron F)) (l : Link F) (i : Nat)
    (hi : l.end_neuron_index ≠ i) : (reference_step ns l)[i]? = ns[i]? := by
  unfold reference_step
  split
  · simp only
    rw [List.getElem?_set_ne hi]
  · rfl

theorem reference_step_parameters (ns : List (RetentiveNeuron F)) (l : Link F) (i : Nat) :
    ((reference_step ns l)[i]?).map (fun n => (n.retention, n.bias)) =
      (ns[i]?).map (fun n => (n.retention, n.bias)) := by
  by_cases hi : l.end_neuron_index = i
  · unfold reference_step
    split
    · rename_i e s he hs
      simp only
      subst hi
      have hlt : l.end_neuron_index < ns.length := by
        by_contra hc
        rw [List.getElem?_eq_none (by omega)] at he
        cases he
      rw [List.getElem?_set_self hlt, he]
      rfl
    · rfl
  · rw [reference_step_other ns l i hi]

theorem foldl_reference_step_other (links : List (Link F)) (i : Nat) :
    ∀ ns : List (RetentiveNeuron F), (∀ l ∈ links, l.end_neuron_index ≠ i) →
      (links.foldl reference_step ns)[i]? = ns[i]? := by
  induction links with
  | nil => intro ns _; rfl
  | cons l ls ih =>
    intro ns h
    rw [List.foldl_cons, ih _ (fun k hk => h k (List.mem_cons_of_mem _ hk)),
      reference_step_other ns l i (h l (List.mem_cons_self _ _))]

theorem foldl_reference_step_parameters (links : List (Link F)) (i : Nat) :
    ∀ ns : List (RetentiveNeuron F),
      ((links.foldl reference_step ns)[i]?).map (fun n => (n.retention, n.bias)) =
        (ns[i]?).map (fun n => (n.retention, n.bias)) := by
  induction links with
  | nil => intro ns; rfl
  | cons l ls ih =>
    intro ns
    rw [List.foldl_cons, ih, reference_step_parameters]

theorem reference_activation_parameters (exp : F → F) (ns : List (RetentiveNeuron F))
    (i : Nat) :
    ((reference_activation exp ns)[i]?).map (fun n => (n.retention, n.bias)) =
      (ns[i]?).map (fun n => (n.retention, n.bias)) := by
  unfold reference_activation
  rw [List.getElem?_mapIdx]
  cases ns[i]? with
  | none => rfl
  | some n =>
    simp only [Option.map_some']
    split_ifs <;> rfl

theorem reference_activation_other (exp : F → F) (ns : List (RetentiveNeuron F)) (i : Nat)
    (hi : ¬ (INPUT_COUNT ≤ i ∧ i < INPUT_COUNT + OUTPUT_COUNT)) :
    (reference_activation exp ns)[i]? = ns[i]? := by
  unfold reference_activation
  rw [List.getElem?_mapIdx]
  simp only [hi, if_false]
  cases ns[i]? <;> rfl

/-- C15: for a network with at least `RESERVED_COUNT` neurons and valid link endpoints,
`pass` returns a network with the same links, the same neuron count, the same retention
and bias everywhere, and the same neuron at every index that is neither an output index
nor the end of a link. -/
theorem pass_writes_only_link_ends_and_outputs (exp : F → F) (g : RetentiveNetwork F)
    (h : RESERVED_COUNT ≤ g.neurons.length) (hv : g.ValidLinks) :
    ∃ g1, g.pass exp = some g1 ∧ g1.links = g.links ∧
      g1.neurons.length = g.neurons.length ∧
      (∀ i : Nat, (g1.neurons[i]?).map (fun n => (n.retention, n.bias)) =
        (g.neurons[i]?).map (fun n => (n.retention, n.bias))) ∧
      (∀ i : Nat, ¬ (INPUT_COUNT ≤ i ∧ i < RESERVED_COUNT) →
        (∀ l ∈ g.links, l.end_neuron_index ≠ i) → g1.neurons[i]? = g.neurons[i]?) := by
  refine ⟨reference_pass exp g, pass_eq_reference exp g h hv, rfl, ?_, ?_, ?_⟩
  · simp [reference_pass, reference_activation, length_foldl_reference_step]
  · intro i
    simp only [reference_pass]
    rw [reference_activation_parameters, foldl_reference_step_parameters]
  · intro i hi hl
    simp only [reference_pass]
    rw [reference_activation_other exp _ i hi, foldl_reference_step_other g.links i _ hl]

/-- Instance of C11: a network fresh from `initialize` that received the link `3 -> 12`. -/
theorem reachable_links_valid_witness :
    Reachable Real.exp
      (((RetentiveNetwork.fresh ℝ).initialize_network (sample_init_draws ℝ)).add_random_link
        3 12 (1 / 2)) ∧
    (RESERVED_COUNT ≤ (((RetentiveNetwork.fresh ℝ).initialize_network
        (sample_init_draws ℝ)).add_random_link 3 12 (1 / 2)).neurons.length ∧
    (∀ l ∈ (((RetentiveNetwork.fresh ℝ).initialize_network
        (sample_init_draws ℝ)).add_random_link 3 12 (1 / 2)).links,
      l.start_neuron_index < (((RetentiveNetwork.fresh ℝ).initialize_network
        (sample_init_draws ℝ)).add_random_link 3 12 (1 / 2)).neurons.length ∧
      l.end_neuron_index < (((RetentiveNetwork.fresh ℝ).initialize_network
        (sample_init_draws ℝ)).add_random_link 3 12 (1 / 2)).neurons.length) ∧
    ∃ g1, (((RetentiveNetwork.fresh ℝ).initialize_network
        (sample_init_draws ℝ)).add_random_link 3 12 (1 / 2)).pass Real.exp = some g1) := by
  have hr : Reachable Real.exp
      (((RetentiveNetwork.fresh ℝ).initialize_network (sample_init_draws ℝ)).add_random_link
        3 12 (1 / 2)) :=
    Reachable.link _ 3 12 (1 / 2)
      (Reachable.init (sample_init_draws ℝ) (by decide) (by decide)) (by decide) (by decide)
  exact ⟨hr, reachable_links_valid Real.exp _ hr⟩

/-- Instance of C13 (amended): fourteen neurons, both draws equal to 3. -/
theorem add_random_link_appends_one_link_witness :
    ((linkless_network ℚ).neurons.length ≤ 65536 ∧
      CanDrawInt (linkless_network ℚ).neuron_distribution (3 : Nat) ∧
      CanDrawInt (linkless_network ℚ).neuron_distribution (3 : Nat)) ∧
    ((linkless_network ℚ).add_random_link 3 3 (1 / 2)).neurons = (linkless_network ℚ).neurons ∧
    ((linkless_network ℚ).add_random_link 3 3 (1 / 2)).links =
      (linkless_network ℚ).links ++ [⟨3, if 3 = 3 then 0 else 3, 1 / 2⟩] :=
  ⟨⟨by decide, by decide, by decide⟩,
    add_random_link_appends_one_link (linkless_network ℚ) 3 3 (1 / 2) (by decide) (by decide)
      (by decide)⟩

/-- Instance of C14: the chain network, a neuron and the link `3 -> 12` added in the call. -/
theorem mutate_parametric_steps_witness :
    (chain_network ℚ 1).mutate_structural (sample_mutate_draws ℚ) =
      some (((chain_network ℚ 1).add_hidden_neuron (1 / 10) (1 / 10)).add_random_link
        3 12 (1 / 2)) ∧
    ∃ g1, (chain_network ℚ 1).mutate (sample_mutate_draws ℚ) = some g1 ∧
      g1.links.length = (((chain_network ℚ 1).add_hidden_neuron (1 / 10)
        (1 / 10)).add_random_link 3 12 (1 / 2)).links.length ∧
      g1.neurons.length = (((chain_network ℚ 1).add_hidden_neuron (1 / 10)
        (1 / 10)).add_random_link 3 12 (1 / 2)).neurons.length ∧
      (∀ i : Nat, g1.links[i]? = ((((chain_network ℚ 1).add_hidden_neuron (1 / 10)
        (1 / 10)).add_random_link 3 12 (1 / 2)).links[i]?).map fun l =>
        (⟨l.start_neuron_index, l.end_neuron_index,
          l.weight * (sample_mutate_draws ℚ).weight_mult i +
            (sample_mutate_draws ℚ).weight_add i⟩ : Link ℚ)) ∧
      (∀ i : Nat, g1.neurons[i]? = ((((chain_network ℚ 1).add_hidden_neuron (1 / 10)
        (1 / 10)).add_random_link 3 12 (1 / 2)).neurons[i]?).map fun n =>
        (⟨n.value, n.retention * (sample_mutate_draws ℚ).retention_mult i +
            (sample_mutate_draws ℚ).retention_add i,
          n.bias * (sample_mutate_draws ℚ).bias_mult i +
            (sample_mutate_draws ℚ).bias_add i⟩ : RetentiveNeuron ℚ)) := by
  have hs : (chain_network ℚ 1).mutate_structural (sample_mutate_draws ℚ) =
      some (((chain_network ℚ 1).add_hidden_neuron (1 / 10) (1 / 10)).add_random_link
        3 12 (1 / 2)) := by
    norm_num [RetentiveNetwork.mutate_structural, sample_mutate_draws, NEW_NEURON_CHANCE,
      NEW_RANDOM_LINK_CHANCE, REMOVE_RANDOM_LINK_CHANCE]
  exact ⟨hs, mutate_parametric_steps (chain_network ℚ 1) _ (sample_mutate_draws ℚ) hs⟩

/-- Instance of C15: the chain network over the reals. -/
theorem pass_writes_only_link_ends_and_outputs_witness :
    (RESERVED_COUNT ≤ (chain_network ℝ 1).neurons.length ∧ (chain_network ℝ 1).ValidLinks) ∧
    ∃ g1, (chain_network ℝ 1).pass Real.exp = some g1 ∧ g1.links = (chain_network ℝ 1).links ∧
      g1.neurons.length = (chain_network ℝ 1).neurons.length ∧
      (∀ i : Nat, (g1.neurons[i]?).map (fun n => (n.retention, n.bias)) =
        ((chain_network ℝ 1).neurons[i]?).map (fun n => (n.retention, n.bias))) ∧
      (∀ i : Nat, ¬ (INPUT_COUNT ≤ i ∧ i < RESERVED_COUNT) →
        (∀ l ∈ (chain_network ℝ 1).links, l.end_neuron_index ≠ i) →
        g1.neurons[i]? = (chain_network ℝ 1).neurons[i]?) :=
  ⟨⟨by decide, chain_network_valid 1⟩,
    pass_writes_only_link_ends_and_outputs Real.exp (chain_network ℝ 1) (by decide)
      (chain_network_valid 1)⟩

/-- Instance of C16: a fresh network that received a link with both draws 0. -/
theorem self_loops_only_on_neuron_zero_witness :
    ReachableByMutation
      (((RetentiveNetwork.fresh ℚ).initialize_network (sample_init_draws ℚ)).add_random_link
        0 0 (1 / 2)) ∧
    (∀ l ∈ (((RetentiveNetwork.fresh ℚ).initialize_network
        (sample_init_draws ℚ)).add_random_link 0 0 (1 / 2)).links,
      l.start_neuron_index = l.end_neuron_index →
      l.start_neuron_index = 0 ∧ l.end_neuron_index = 0) := by
  have hr : ReachableByMutation
      (((RetentiveNetwork.fresh ℚ).initialize_network (sample_init_draws ℚ)).add_random_link
        0 0 (1 / 2)) :=
    ReachableByMutation.link _ 0 0 (1 / 2)
      (ReachableByMutation.init (sample_init_draws ℚ) (by decide))
  exact ⟨hr, (self_loops_only_on_neuron_zero _ hr).1⟩

/-- C8 (the code at the failing input): the offspring copied from a parent without links
equals the parent, and a `mutate` of that offspring whose removal step fires draws the
index 0 and erases outside the empty link vector: the call does not complete, so
nothing is guaranteed about the parent's sequences after it. -/
theorem mutate_after_clone_erases_outside_the_vector :
    (Population.clone_step ⟨linkless_network ℚ, RetentiveNetwork.fresh ℚ⟩).offspring =
      linkless_network ℚ ∧
    (removal_draws ℚ).remove_roll ≤ REMOVE_RANDOM_LINK_CHANCE ∧
    CanDraw (Population.clone_step
      ⟨linkless_network ℚ, RetentiveNetwork.fresh ℚ⟩).offspring.link_distribution
      (removal_draws ℚ).remove_index ∧
    (Population.clone_step ⟨linkless_network ℚ, RetentiveNetwork.fresh ℚ⟩).mutate_offspring
      (removal_draws ℚ) = none := by
  have hc : (Population.clone_step ⟨linkless_network ℚ, RetentiveNetwork.fresh ℚ⟩).offspring =
      linkless_network ℚ := by
    simp only [Population.clone_step, copy_structure_eq_append, RetentiveNetwork.fresh,
      List.nil_append]
  refine ⟨hc, ?_, ?_, ?_⟩
  · norm_num [removal_draws, REMOVE_RANDOM_LINK_CHANCE]
  · rw [hc]; decide
  · unfold Population.mutate_offspring
    rw [hc]
    norm_num [RetentiveNetwork.mutate, removal_draws, REMOVE_RANDOM_LINK_CHANCE,
      NEW_NEURON_CHANCE, NEW_RANDOM_LINK_CHANCE, RetentiveNetwork.remove_random_link,
      linkless_network]

end Proofs

end RetentiveNetworkModel

namespace StandardNetworkModel

theorem weight_offset_mono (sizes : List Nat) (j : Nat) :
    ∀ k, j ≤ k → weight_offset sizes j ≤ weight_offset sizes k := by
  intro k hk
  induction k with
  | zero =>
    have : j = 0 := by omega
    subst this; exact le_rfl
  | succ k ih =>
    rcases Nat.lt_or_ge j (k + 1) with h | h
    · have := ih (by omega)
      simp only [weight_offset]
      omega
    · have : j = k + 1 := by omega
      subst this; exact le_rfl

theorem weight_count_loop_exact (sizes : List Nat) :
    ∀ k, k < sizes.length → weight_offset sizes k < 65536 →
      weight_count_loop sizes k = some (weight_offset sizes k) := by
  intro k
  induction k with
  | zero => intro _ _; rfl
  | succ k ih =>
    intro hk hfit
    have hmono := weight_offset_mono sizes k (k + 1) (by omega)
    have hprev := ih (by omega) (by omega)
    have h1 : sizes[k + 1]? = some (sizes.getD (k + 1) 0) := by
      rw [List.getD_eq_getElem?_getD, List.getElem?_eq_getElem hk]; rfl
    have h2 : sizes[k]? = some (sizes.getD k 0) := by
      rw [List.getD_eq_getElem?_getD, List.getElem?_eq_getElem (by omega)]; rfl
    simp only [weight_count_loop, layer_size_at, hprev, h1, h2, to_ushort]
    simp only [weight_offset] at hfit
    rw [Nat.mod_eq_of_lt hfit]
    rfl

theorem weight_count_exact (sizes : List Nat) (h2 : 2 ≤ sizes.length)
    (hlen : sizes.length < 65536) (hfit : weight_total sizes < 65536) :
    weight_count sizes = some (weight_total sizes) := by
  unfold weight_count layer_count to_ushort
  rw [Nat.mod_eq_of_lt hlen]
  exact weight_count_loop_exact sizes _ (by omega) hfit

theorem get_weight_at_index_exact (sizes : List Nat) (hfit : weight_total sizes < 65536)
    (t n i : Nat) (ht : 1 ≤ t) (htl : t < sizes.length) (hlen : sizes.length < 65536)
    (hn : n < sizes.getD t 0) (hi : i < sizes.getD (t - 1) 0) :
    get_weight_at_index sizes t n i =
        some (weight_offset sizes (t - 1) + n * sizes.getD (t - 1) 0 + i) ∧
      weight_offset sizes (t - 1) + n * sizes.getD (t - 1) 0 + i < weight_offset sizes t ∧
      weight_offset sizes t ≤ weight_total sizes := by
  obtain ⟨p, rfl⟩ : ∃ p, t = p + 1 := ⟨t - 1, by omega⟩
  simp only [Nat.add_sub_cancel] at hi ⊢
  have htot : weight_offset sizes (p + 1) ≤ weight_total sizes :=
    weight_offset_mono sizes (p + 1) _ (by omega)
  have hbound : weight_offset sizes p + n * sizes.getD p 0 + i < weight_offset sizes (p + 1) := by
    simp only [weight_offset]
    have : (n + 1) * sizes.getD p 0 ≤ sizes.getD (p + 1) 0 * sizes.getD p 0 :=
      Nat.mul_le_mul_right _ hn
    have e : (n + 1) * sizes.getD p 0 = n * sizes.getD p 0 + sizes.getD p 0 := by ring
    omega
  refine ⟨?_, hbound, htot⟩
  have hloop := weight_count_loop_exact sizes p (by omega)
    (by have := weight_offset_mono sizes p (p + 1) (by omega); omega)
  have hidx : to_ushort (p + 1 + 65535) = p := by
    unfold to_ushort; omega
  have hsz : sizes[p]? = some (sizes.getD p 0) := by
    rw [List.getD_eq_getElem?_getD, List.getElem?_eq_getElem (by omega)]; rfl
  simp only [get_weight_at_index, Nat.add_sub_cancel, hloop, hidx, layer_size_at, hsz]
  simp only [to_ushort]
  have h1 : weight_offset sizes p + n * sizes.getD p 0 < 65536 := by omega
  have h2 : weight_offset sizes p + n * sizes.getD p 0 + i < 65536 := by omega
  rw [Nat.mod_eq_of_lt h1, Nat.mod_eq_of_lt h2]

theorem flat_index_injective (sizes : List Nat) (t n i t1 n1 i1 : Nat)
    (ht : 1 ≤ t) (ht1 : 1 ≤ t1)
    (hi : i < sizes.getD (t - 1) 0) (hi1 : i1 < sizes.getD (t1 - 1) 0)
    (hb : weight_offset sizes (t - 1) + n * sizes.getD (t - 1) 0 + i < weight_offset sizes t)
    (hb1 : weight_offset sizes (t1 - 1) + n1 * sizes.getD (t1 - 1) 0 + i1 <
      weight_offset sizes t1)
    (heq : weight_offset sizes (t - 1) + n * sizes.getD (t - 1) 0 + i =
      weight_offset sizes (t1 - 1) + n1 * sizes.getD (t1 - 1) 0 + i1) :
    t = t1 ∧ n = n1 ∧ i = i1 := by
  have htt : t = t1 := by
    rcases Nat.lt_trichotomy t t1 with h | h | h
    · have := weight_offset_mono sizes t (t1 - 1) (by omega)
      omega
    · exact h
    · have := weight_offset_mono sizes t1 (t - 1) (by omega)
      omega
  subst htt
  have heq2 : n * sizes.getD (t - 1) 0 + i = n1 * sizes.getD (t - 1) 0 + i1 := by omega
  have hpos : 0 < sizes.getD (t - 1) 0 := by omega
  have hn : n = n1 := by
    have a1 : (n * sizes.getD (t - 1) 0 + i) / sizes.getD (t - 1) 0 = n := by
      rw [Nat.mul_comm, Nat.mul_add_div hpos, Nat.div_eq_of_lt hi, Nat.add_zero]
    have a2 : (n1 * sizes.getD (t - 1) 0 + i1) / sizes.getD (t - 1) 0 = n1 := by
      rw [Nat.mul_comm, Nat.mul_add_div hpos, Nat.div_eq_of_lt hi1, Nat.add_zero]
    rw [← a1, ← a2, heq2]
  subst hn
  exact ⟨rfl, rfl, by omega⟩

/-- C19: for layer sizes with at least two layers (fewer than 65536, as the template
needs) whose exact weight total fits an `unsigned short`, and a layer `t >= 1`, neuron
`n < size[t]`, input `i < size[t-1]`: `get_weight_at` computes the index
`sum_(l in [1,t)) size[l]*size[l-1] + n*size[t-1] + i`, it is below `weight_count()`,
and no other valid triple gets the same index. -/
theorem weight_index_in_range_and_injective (sizes : List Nat) (h2 : 2 ≤ sizes.length)
    (hlen : sizes.length < 65536) (hfit : weight_total sizes < 65536)
    (t n i : Nat) (ht : 1 ≤ t) (htl : t < sizes.length)
    (hn : n < sizes.getD t 0) (hi : i < sizes.getD (t - 1) 0) :
    ∃ idx wc, get_weight_at_index sizes t n i = some idx ∧ weight_count sizes = some wc ∧
      idx = weight_offset sizes (t - 1) + n * sizes.getD (t - 1) 0 + i ∧ idx < wc ∧
      ∀ t1 n1 i1 : Nat, 1 ≤ t1 → t1 < sizes.length → n1 < sizes.getD t1 0 →
        i1 < sizes.getD (t1 - 1) 0 → get_weight_at_index sizes t1 n1 i1 = some idx →
        t1 = t ∧ n1 = n ∧ i1 = i := by
  obtain ⟨e, hb, htot⟩ := get_weight_at_index_exact sizes hfit t n i ht htl hlen hn hi
  refine ⟨_, _, e, weight_count_exact sizes h2 hlen hfit, rfl, by omega, ?_⟩
  intro t1 n1 i1 ht1 htl1 hn1 hi1 he1
  obtain ⟨e1, hb1, _⟩ := get_weight_at_index_exact sizes hfit t1 n1 i1 ht1 htl1 hlen hn1 hi1
  rw [e1] at he1
  exact flat_index_injective sizes t1 n1 i1 t n i ht1 ht hi1 hi hb1 hb (Option.some.inj he1)

/-- Instance of C19: layers of sizes 2, 3, 2; the last weight of the last layer. -/
theorem weight_index_in_range_and_injective_witness :
    (2 ≤ [2, 3, 2].length ∧ [2, 3, 2].length < 65536 ∧ weight_total [2, 3, 2] < 65536 ∧
      1 ≤ 2 ∧ 2 < [2, 3, 2].length ∧ 1 < [2, 3, 2].getD 2 0 ∧ 2 < [2, 3, 2].getD (2 - 1) 0) ∧
    ∃ idx wc, get_weight_at_index [2, 3, 2] 2 1 2 = some idx ∧
      weight_count [2, 3, 2] = some wc ∧
      idx = weight_offset [2, 3, 2] (2 - 1) + 1 * [2, 3, 2].getD (2 - 1) 0 + 2 ∧ idx < wc ∧
      ∀ t1 n1 i1 : Nat, 1 ≤ t1 → t1 < [2, 3, 2].length → n1 < [2, 3, 2].getD t1 0 →
        i1 < [2, 3, 2].getD (t1 - 1) 0 → get_weight_at_index [2, 3, 2] t1 n1 i1 = some idx →
        t1 = 2 ∧ n1 = 1 ∧ i1 = 2 :=
  ⟨by decide, weight_index_in_range_and_injective [2, 3, 2] (by decide) (by decide) (by decide)
    2 1 2 (by decide) (by decide) (by decide) (by decide)⟩


end StandardNetworkModel

namespace FloatModel

open RetentiveNetworkModel (RetentiveNeuron Link RetentiveNetwork INPUT_COUNT OUTPUT_COUNT
  RESERVED_COUNT)

theorem Fp.lt_iff (a b : Fp) : a < b ↔ Fp.blt a b = true := Iff.rfl

theorem Fp.le_iff (a b : Fp) : a ≤ b ↔ Fp.ble a b = true := Iff.rfl

theorem Fp.fin_le_fin (a b : ℚ) : Fp.fin a ≤ Fp.fin b ↔ a ≤ b := by
  simp [Fp.le_iff, Fp.ble]

theorem Fp.fin_lt_fin (a b : ℚ) : Fp.fin a < Fp.fin b ↔ a < b := by
  simp [Fp.lt_iff, Fp.blt]

/-- The pair `std::min` then `std::max` leaves NaN as it is and bounds everything else. -/
theorem clamp_nan_or_bounded (v : Fp) :
    (v = Fp.nan → std_max (std_min v MAX_ACTIVATION_VALUE) MAX_ACTIVATION_VALUE.neg = Fp.nan) ∧
    (v ≠ Fp.nan →
      MAX_ACTIVATION_VALUE.neg ≤ std_max (std_min v MAX_ACTIVATION_VALUE) MAX_ACTIVATION_VALUE.neg ∧
      std_max (std_min v MAX_ACTIVATION_VALUE) MAX_ACTIVATION_VALUE.neg ≤ MAX_ACTIVATION_VALUE) := by
  cases v with
  | nan => simp [std_min, std_max, MAX_ACTIVATION_VALUE, Fp.neg, Fp.lt_iff, Fp.blt]
  | pos_inf =>
    refine ⟨fun h => (by cases h), fun _ => ?_⟩
    norm_num [std_min, std_max, MAX_ACTIVATION_VALUE, Fp.neg, Fp.lt_iff, Fp.blt, Fp.le_iff,
      Fp.ble]
  | neg_inf =>
    refine ⟨fun h => (by cases h), fun _ => ?_⟩
    norm_num [std_min, std_max, MAX_ACTIVATION_VALUE, Fp.neg, Fp.lt_iff, Fp.blt, Fp.le_iff,
      Fp.ble]
  | fin q =>
    refine ⟨fun h => (by cases h), fun _ => ?_⟩
    simp only [std_min, std_max, MAX_ACTIVATION_VALUE, Fp.neg, Fp.fin_lt_fin]
    by_cases h1 : (1000 : ℚ) < q
    · norm_num [h1, Fp.fin_lt_fin, Fp.fin_le_fin]
    · simp only [h1, if_false, Fp.fin_lt_fin]
      by_cases h2 : q < -1000
      · norm_num [h2, Fp.fin_le_fin]
      · simp only [h2, if_false, Fp.fin_le_fin]
        exact ⟨not_lt.mp h2, not_lt.mp h1⟩


theorem flush_round_like_float : RoundsLikeFloat flush_round := by
  have hu : (0 : ℚ) < 1 / 2 ^ 150 := by positivity
  have hM : (1 / 2 ^ 150 : ℚ) < 2 ^ 128 := by norm_num
  refine ⟨?_, ?_, ?_, ?_⟩
  · intro q
    unfold flush_round
    split_ifs <;> simp
  · intro p q hpq
    unfold flush_round
    generalize (1 / 2 ^ 150 : ℚ) = u at hu hM ⊢
    generalize (2 ^ 128 : ℚ) = M at hM ⊢
    split_ifs <;> simp only [Fp.le_iff, Fp.ble, decide_eq_true_eq] <;>
      first | trivial | linarith
  · intro m k h1 h2 hk
    unfold flush_round
    have hpow : (0 : ℚ) < 2 ^ k := by positivity
    have hone : (1 : ℚ) ≤ 2 ^ k := one_le_pow₀ (by norm_num)
    have hpk : (2 : ℚ) ^ k ≤ 2 ^ 149 := pow_le_pow_right₀ (by norm_num) hk
    have h1q : (-(2 ^ 24) : ℚ) < m := by exact_mod_cast h1
    have h2q : (m : ℚ) < 2 ^ 24 := by exact_mod_cast h2
    have hbig : ¬ ((2 : ℚ) ^ 128 ≤ m / 2 ^ k) := by
      rw [not_le, div_lt_iff₀ hpow]
      nlinarith
    have hsmall : ¬ ((m : ℚ) / 2 ^ k ≤ -(2 ^ 128)) := by
      rw [not_le, lt_div_iff₀ hpow]
      nlinarith
    rw [if_neg hsmall, if_neg hbig]
    split_ifs with ha hb
    · rfl
    · rfl
    · have hm : m = 0 := by
        by_contra hm
        rw [not_lt, le_div_iff₀ hpow] at ha
        rw [not_lt, div_le_iff₀ hpow] at hb
        have e149 : (1 / 2 ^ 150 : ℚ) * 2 ^ 149 = 1 / 2 := by norm_num
        rcases lt_or_gt_of_ne hm with hneg | hpos
        · have hm1 : (m : ℚ) ≤ -1 := by exact_mod_cast Int.le_sub_one_of_lt hneg
          have : (1 / 2 ^ 150 : ℚ) * 2 ^ k ≤ (1 / 2 ^ 150) * 2 ^ 149 :=
            mul_le_mul_of_nonneg_left hpk hu.le
          linarith
        · have hm1 : (1 : ℚ) ≤ m := by exact_mod_cast hpos
          have : (1 / 2 ^ 150 : ℚ) * 2 ^ k ≤ (1 / 2 ^ 150) * 2 ^ 149 :=
            mul_le_mul_of_nonneg_left hpk hu.le
          linarith
      subst hm
      simp
  · intro q h1 h2
    unfold flush_round
    rw [if_neg (by linarith), if_neg (by linarith), if_neg (by linarith), if_neg (by linarith)]

theorem float_exp_like_float (core : ℚ → ℚ) (hc : ∀ x, 0 ≤ core x) :
    ExpLikeFloat (float_exp core) := by
  refine ⟨rfl, ?_⟩
  intro y hy
  cases y with
  | nan => exact absurd rfl hy
  | pos_inf => simp [float_exp, Fp.le_iff, Fp.ble]
  | neg_inf => simp [float_exp, Fp.le_iff, Fp.ble]
  | fin x =>
    simp only [float_exp]
    split_ifs
    · simp [Fp.le_iff, Fp.ble]
    · simp [Fp.le_iff, Fp.ble]
    · simp [Fp.le_iff, Fp.ble, hc x]


theorem pass_link_in_range (rnd : ℚ → Fp) (ns : List (RetentiveNeuron Fp)) (l : Link Fp)
    (hs : l.start_neuron_index < ns.length) (he : l.end_neuron_index < ns.length) :
    pass_link rnd ns l = some (ns.set l.end_neuron_index
      { ns[l.end_neuron_index] with
        value := std_max (std_min (link_sum rnd ns[l.end_neuron_index]
          ns[l.start_neuron_index] l) MAX_ACTIVATION_VALUE) MAX_ACTIVATION_VALUE.neg }) := by
  unfold pass_link
  rw [List.getElem?_eq_getElem he, List.getElem?_eq_getElem hs]

theorem pass_links_returns (rnd : ℚ → Fp) (links : List (Link Fp)) :
    ∀ ns : List (RetentiveNeuron Fp),
      (∀ l ∈ links, l.start_neuron_index < ns.length ∧ l.end_neuron_index < ns.length) →
      ∃ ns1, pass_links rnd ns links = some ns1 ∧ ns1.length = ns.length := by
  induction links with
  | nil => intro ns _; exact ⟨ns, rfl, rfl⟩
  | cons l ls ih =>
    intro ns h
    have hl := h l (List.mem_cons_self _ _)
    obtain ⟨ns1, h1, h2⟩ := ih (ns.set l.end_neuron_index
      { ns[l.end_neuron_index] with
        value := std_max (std_min (link_sum rnd ns[l.end_neuron_index]
          ns[l.start_neuron_index] l) MAX_ACTIVATION_VALUE) MAX_ACTIVATION_VALUE.neg })
      (fun k hk => by
        rw [List.length_set]
        exact h k (List.mem_cons_of_mem _ hk))
    refine ⟨ns1, ?_, by rw [h2, List.length_set]⟩
    unfold pass_links at h1 ⊢
    rw [List.foldlM_cons, pass_link_in_range rnd ns l hl.1 hl.2]
    simpa only [Option.some_bind, Option.bind_eq_bind] using h1

theorem activate_at_in_range (rnd : ℚ → Fp) (exp : Fp → Fp) (ns : List (RetentiveNeuron Fp))
    (i : Nat) (h : i < ns.length) :
    activate_at rnd exp ns i =
      some (ns.set i { ns[i] with value := sigmoid_activation rnd exp ns[i].value }) := by
  unfold activate_at
  rw [List.getElem?_eq_getElem h]

theorem activate_range_float (rnd : ℚ → Fp) (exp : Fp → Fp) :
    ∀ (k a : Nat) (ns : List (RetentiveNeuron Fp)), a + k ≤ ns.length →
      (List.range' a k).foldlM (activate_at rnd exp) ns =
        some (ns.mapIdx fun i n =>
          if a ≤ i ∧ i < a + k then { n with value := sigmoid_activation rnd exp n.value }
          else n) := by
  intro k
  induction k with
  | zero =>
    intro a ns _
    simp only [List.range'_zero, List.foldlM_nil, add_zero]
    congr 1
    apply List.ext_getElem?
    intro i
    rw [List.getElem?_mapIdx]
    have : ¬ (a ≤ i ∧ i < a) := by omega
    simp only [this, if_false]
    cases ns[i]? <;> rfl
  | succ k ih =>
    intro a ns h
    have ha : a < ns.length := by omega
    rw [List.range'_succ, List.foldlM_cons, activate_at_in_range rnd exp ns a ha]
    simp only [Option.some_bind, Option.bind_eq_bind]
    rw [ih (a + 1) _ (by rw [List.length_set]; omega)]
    congr 1
    apply List.ext_getElem?
    intro i
    rw [List.getElem?_mapIdx, List.getElem?_mapIdx, List.getElem?_set]
    by_cases hia : a = i
    · subst hia
      have c1 : ¬ (a + 1 ≤ a ∧ a < a + 1 + k) := by omega
      have c2 : (a ≤ a ∧ a < a + (k + 1)) := by omega
      simp only [ha, if_true, c1, c2, if_false, Option.map_some', List.getElem?_eq_getElem,
        and_self]
    · have c : (a + 1 ≤ i ∧ i < a + 1 + k) ↔ (a ≤ i ∧ i < a + (k + 1)) := by omega
      simp only [hia, if_false, c]

/-- C3 (amended): for a network with valid link endpoints, every link `l` of the list
is processed, and right after its update the value of its end neuron lies in
`[-MAX_ACTIVATION_VALUE, MAX_ACTIVATION_VALUE]` whenever the updated sum
`end.value + start.value * weight` is not NaN (an infinite sum included); when the sum
is NaN the value is NaN. No property of the rounding is used. -/
theorem float_pass_link_clamped_unless_nan (rnd : ℚ → Fp) (g : RetentiveNetwork Fp)
    (hv : g.ValidLinks) (before after : List (Link Fp)) (l : Link Fp)
    (hl : g.links = before ++ l :: after) :
    ∃ ns ns1 e s n, pass_links rnd g.neurons before = some ns ∧
      ns[l.end_neuron_index]? = some e ∧ ns[l.start_neuron_index]? = some s ∧
      pass_link rnd ns l = some ns1 ∧ ns1[l.end_neuron_index]? = some n ∧
      (link_sum rnd e s l = Fp.nan → n.value = Fp.nan) ∧
      (link_sum rnd e s l ≠ Fp.nan →
        MAX_ACTIVATION_VALUE.neg ≤ n.value ∧ n.value ≤ MAX_ACTIVATION_VALUE) := by
  have hb : ∀ k ∈ before, k.start_neuron_index < g.neurons.length ∧
      k.end_neuron_index < g.neurons.length := fun k hk =>
    hv k (by rw [hl]; exact List.mem_append_left _ hk)
  have hlv := hv l (by rw [hl]; simp)
  obtain ⟨ns, hns, hlen⟩ := pass_links_returns rnd before g.neurons hb
  rw [← hlen] at hlv
  refine ⟨ns, _, ns[l.end_neuron_index], ns[l.start_neuron_index], _, hns,
    List.getElem?_eq_getElem hlv.2, List.getElem?_eq_getElem hlv.1,
    pass_link_in_range rnd ns l hlv.1 hlv.2, List.getElem?_set_self hlv.2, ?_, ?_⟩
  · exact (clamp_nan_or_bounded _).1
  · exact (clamp_nan_or_bounded _).2

theorem overflowed_network_valid : overflowed_network.ValidLinks := by
  intro l hl
  simp only [overflowed_network, List.mem_singleton] at hl
  subst hl
  simp [overflowed_network]

set_option maxRecDepth 20000 in
/-- C3 (counterexample): two hidden neurons of retention 4 hold the finite values `2^127`
and `-2^127`; `prepare`, which is not clamped, overflows them to `+inf` and `-inf`; the
link `11 -> 12` of weight 1 then computes `-inf + inf * 1`, which is NaN; `std::min` and
`std::max` return it unchanged, and the end neuron holds NaN, which is not within the
bounds. -/
theorem float_pass_link_leaves_nan :
    prepare flush_round growing_network = overflowed_network ∧
    overflowed_network.ValidLinks ∧
    (pass_link flush_round overflowed_network.neurons ⟨11, 12, Fp.fin 1⟩).map
      (fun ns => (ns[12]?).map RetentiveNeuron.value) = some (some Fp.nan) ∧
    ¬ (MAX_ACTIVATION_VALUE.neg ≤ Fp.nan ∧ Fp.nan ≤ MAX_ACTIVATION_VALUE) := by
  refine ⟨?_, overflowed_network_valid, ?_, ?_⟩
  · norm_num [prepare, neuron_prepare, growing_network, overflowed_network, zeroed, Fp.mul,
      Fp.add, flush_round]
  · simp [pass_link, overflowed_network, link_sum, Fp.add, Fp.mul, Fp.sign, Fp.of_sign,
      std_min, std_max, MAX_ACTIVATION_VALUE, Fp.neg, Fp.lt_iff, Fp.blt]
  · simp [Fp.le_iff, Fp.ble, MAX_ACTIVATION_VALUE, Fp.neg]

theorem round_zero (rnd : ℚ → Fp) (hr : RoundsLikeFloat rnd) : rnd 0 = Fp.fin 0 := by
  have := hr.exact 0 0 (by norm_num) (by norm_num) (by norm_num)
  simpa using this

theorem round_one (rnd : ℚ → Fp) (hr : RoundsLikeFloat rnd) : rnd 1 = Fp.fin 1 := by
  have := hr.exact 1 0 (by norm_num) (by norm_num) (by norm_num)
  simpa using this

theorem sigmoid_nan (rnd : ℚ → Fp) (exp : Fp → Fp) (he : ExpLikeFloat exp) :
    sigmoid_activation rnd exp Fp.nan = Fp.nan := by
  simp [sigmoid_activation, Fp.neg, he.nan, Fp.add, Fp.div]

theorem sigmoid_closed_range (rnd : ℚ → Fp) (hr : RoundsLikeFloat rnd) (exp : Fp → Fp)
    (he : ExpLikeFloat exp) (x : Fp) (hx : x ≠ Fp.nan) :
    Fp.fin 0 ≤ sigmoid_activation rnd exp x ∧ sigmoid_activation rnd exp x ≤ Fp.fin 1 := by
  have hy : x.neg ≠ Fp.nan := by cases x <;> simp [Fp.neg] at hx ⊢
  obtain ⟨hne, hnn⟩ := he.nonneg x.neg hy
  unfold sigmoid_activation
  cases hE : exp x.neg with
  | nan => exact absurd hE hne
  | neg_inf => rw [hE] at hnn; simp [Fp.le_iff, Fp.ble] at hnn
  | pos_inf => simp [Fp.add, Fp.div, Fp.le_iff, Fp.ble]
  | fin q =>
    rw [hE] at hnn
    have hq : (0 : ℚ) ≤ q := (Fp.fin_le_fin 0 q).mp hnn
    have hs1 : Fp.fin 1 ≤ rnd (1 + q) := by
      rw [← round_one rnd hr]
      exact hr.mono 1 (1 + q) (by linarith)
    have hsn := hr.not_nan (1 + q)
    simp only [Fp.add]
    cases hS : rnd (1 + q) with
    | nan => exact absurd hS hsn
    | neg_inf => rw [hS] at hs1; simp [Fp.le_iff, Fp.ble] at hs1
    | pos_inf => simp [Fp.div, Fp.le_iff, Fp.ble]
    | fin t =>
      rw [hS] at hs1
      have ht : (1 : ℚ) ≤ t := (Fp.fin_le_fin 1 t).mp hs1
      have ht0 : t ≠ 0 := by linarith
      simp only [Fp.div, if_neg ht0]
      have h0 : (0 : ℚ) ≤ 1 / t := by positivity
      have h1 : (1 : ℚ) / t ≤ 1 := by
        rw [div_le_one (by linarith)]; exact ht
      constructor
      · rw [← round_zero rnd hr]; exact hr.mono 0 (1 / t) h0
      · rw [← round_one rnd hr]; exact hr.mono (1 / t) 1 h1

/-- C2 (amended): for a network with at least `RESERVED_COUNT` neurons and valid link
endpoints and an output index `j < OUTPUT_COUNT`, `pass` returns and `get_output_at(j)`
is the float evaluation of `1/(1+e^(-x))` at the value `x` that neuron `INPUT_COUNT + j`
holds after the link loop; it lies in the closed interval `[0, 1]` when `x` is not NaN
and is NaN when `x` is NaN. Holds for every rounding and exponential that behave as
`RoundsLikeFloat` and `ExpLikeFloat` say. -/
theorem float_pass_output_in_closed_range (rnd : ℚ → Fp) (hr : RoundsLikeFloat rnd)
    (exp : Fp → Fp) (he : ExpLikeFloat exp) (g : RetentiveNetwork Fp)
    (h : RESERVED_COUNT ≤ g.neurons.length) (hv : g.ValidLinks) (j : Nat)
    (hj : j < OUTPUT_COUNT) :
    ∃ ns g1 x, pass_links rnd g.neurons g.links = some ns ∧
      (ns[INPUT_COUNT + j]?).map RetentiveNeuron.value = some x ∧
      pass rnd exp g = some g1 ∧
      g1.get_output_at j = some (sigmoid_activation rnd exp x) ∧
      (x = Fp.nan → sigmoid_activation rnd exp x = Fp.nan) ∧
      (x ≠ Fp.nan → Fp.fin 0 ≤ sigmoid_activation rnd exp x ∧
        sigmoid_activation rnd exp x ≤ Fp.fin 1) := by
  obtain ⟨ns, hns, hlen⟩ := pass_links_returns rnd g.links g.neurons hv
  have hR : RESERVED_COUNT = INPUT_COUNT + OUTPUT_COUNT := rfl
  have hidx : INPUT_COUNT + j < ns.length := by rw [hlen]; omega
  have hact := activate_range_float rnd exp OUTPUT_COUNT INPUT_COUNT ns (by rw [hlen]; omega)
  refine ⟨ns, ⟨ns.mapIdx fun i n =>
      if INPUT_COUNT ≤ i ∧ i < INPUT_COUNT + OUTPUT_COUNT then
        { n with value := sigmoid_activation rnd exp n.value } else n, g.links⟩,
    ns[INPUT_COUNT + j].value, hns, ?_, ?_, ?_, ?_, ?_⟩
  · rw [List.getElem?_eq_getElem hidx]; rfl
  · unfold pass
    rw [hns]
    simp only
    unfold apply_output_activation
    rw [hact]
    rfl
  · unfold RetentiveNetwork.get_output_at
    simp only [List.getElem?_mapIdx, List.getElem?_eq_getElem hidx, Option.map_some']
    have c : INPUT_COUNT ≤ INPUT_COUNT + j ∧ INPUT_COUNT + j < INPUT_COUNT + OUTPUT_COUNT := by
      omega
    rw [if_pos c]
  · intro hx
    rw [hx]
    exact sigmoid_nan rnd exp he
  · exact sigmoid_closed_range rnd hr exp he _

theorem saturating_network_valid : saturating_network.ValidLinks := by
  intro l hl
  simp only [saturating_network, List.mem_cons, List.mem_singleton, List.not_mem_nil,
    or_false] at hl
  rcases hl with rfl | rfl <;> simp [saturating_network]

set_option maxRecDepth 20000 in
/-- C2 (counterexample): input neuron 0 holds 1000 and feeds output neurons 0 and 1
with the weights 1 and -1, so they hold 1000 and -1000 after the link loop; `e^-1000`
underflows to 0 and `e^1000` overflows to `+inf`, and the two outputs are exactly 1 and
exactly 0 (the stand-in for the library's values in the normal range is not consulted
for these two neurons), not strictly between 0 and 1. -/
theorem float_sigmoid_saturates :
    RESERVED_COUNT ≤ saturating_network.neurons.length ∧ saturating_network.ValidLinks ∧
    (pass_links flush_round saturating_network.neurons saturating_network.links).map
      (fun ns => ((ns[5]?).map RetentiveNeuron.value, (ns[6]?).map RetentiveNeuron.value)) =
        some (some (Fp.fin 1000), some (Fp.fin (-1000))) ∧
    (pass flush_round (float_exp fun _ => 1) saturating_network).map
      (fun g => (g.get_output_at 0, g.get_output_at 1)) =
        some (some (Fp.fin 1), some (Fp.fin 0)) ∧
    ¬ (Fp.fin 1 < Fp.fin 1) ∧ ¬ (Fp.fin 0 < Fp.fin 0) := by
  refine ⟨by decide, saturating_network_valid, ?_, ?_, ?_, ?_⟩
  · norm_num [pass_links, pass_link, saturating_network, zeroed, link_sum, Fp.add, Fp.mul,
      std_min, std_max, MAX_ACTIVATION_VALUE, Fp.neg, Fp.fin_lt_fin, flush_round]
  · norm_num [pass, apply_output_activation, activate_at, sigmoid_activation, float_exp,
      pass_links, pass_link, saturating_network, zeroed, link_sum, Fp.add, Fp.mul, Fp.div,
      std_min, std_max, MAX_ACTIVATION_VALUE, Fp.neg, Fp.fin_lt_fin, flush_round,
      RetentiveNetwork.get_output_at, INPUT_COUNT, OUTPUT_COUNT, List.range']
  · rw [Fp.fin_lt_fin]; norm_num
  · rw [Fp.fin_lt_fin]; norm_num


theorem round_tenth (rnd : ℚ → Fp) (hr : RoundsLikeFloat rnd) : rnd TENTH = Fp.fin TENTH := by
  have := hr.exact 13421773 27 (by norm_num) (by norm_num) (by norm_num)
  have e : ((13421773 : ℤ) : ℚ) / 2 ^ 27 = TENTH := by norm_num [TENTH]
  rwa [e] at this

theorem not_lt_of_fin_zero_le (x : Fp) (h : Fp.fin 0 ≤ x) : ¬ (x < Fp.fin 0) := by
  cases x with
  | nan => simp [Fp.lt_iff, Fp.blt]
  | pos_inf => simp [Fp.lt_iff, Fp.blt]
  | neg_inf => simp [Fp.le_iff, Fp.ble] at h
  | fin q =>
    rw [Fp.fin_le_fin] at h
    rw [Fp.fin_lt_fin]
    exact not_lt.mpr h

theorem leaky_relu_negative_input (rnd : ℚ → Fp) (hr : RoundsLikeFloat rnd) (x : Fp)
    (hx : x < Fp.fin 0) :
    leaky_relu_activation rnd x = Fp.mul rnd x (Fp.fin TENTH).neg ∧
      Fp.fin 0 ≤ leaky_relu_activation rnd x := by
  have hdef : leaky_relu_activation rnd x = Fp.mul rnd x (Fp.fin TENTH).neg := by
    unfold leaky_relu_activation
    rw [if_pos hx]
  refine ⟨hdef, ?_⟩
  rw [hdef]
  cases x with
  | nan => simp [Fp.lt_iff, Fp.blt] at hx
  | pos_inf => simp [Fp.lt_iff, Fp.blt] at hx
  | neg_inf =>
    norm_num [Fp.mul, Fp.neg, Fp.sign, Fp.of_sign, TENTH, Fp.le_iff, Fp.ble]
  | fin q =>
    rw [Fp.fin_lt_fin] at hx
    simp only [Fp.mul, Fp.neg]
    rw [← round_zero rnd hr]
    apply hr.mono
    have : (0 : ℚ) < TENTH := by norm_num [TENTH]
    nlinarith

/-- C20 (amended): `leaky_relu_activation` returns `x` for `x >= 0` and the float product
`x * -0.1f` for `x < 0`; its result is never negative, a negative input gives a result
`>= 0`, which is exactly 0 at `x = -2^-149` where the product underflows; and the
function is not monotone, `f(0) < f(-1)`. Holds for every rounding that behaves as
`RoundsLikeFloat` says. -/
theorem float_leaky_relu_never_negative (rnd : ℚ → Fp) (hr : RoundsLikeFloat rnd) :
    (∀ x : Fp, Fp.fin 0 ≤ x → leaky_relu_activation rnd x = x) ∧
    (∀ x : Fp, x < Fp.fin 0 →
      leaky_relu_activation rnd x = Fp.mul rnd x (Fp.fin TENTH).neg ∧
      Fp.fin 0 ≤ leaky_relu_activation rnd x) ∧
    (∀ x : Fp, ¬ (leaky_relu_activation rnd x < Fp.fin 0)) ∧
    leaky_relu_activation rnd (Fp.fin (-(1 / 2 ^ 149))) = Fp.fin 0 ∧
    (Fp.fin (-1) ≤ Fp.fin 0 ∧
      leaky_relu_activation rnd (Fp.fin 0) < leaky_relu_activation rnd (Fp.fin (-1))) := by
  have hkeep : ∀ x : Fp, ¬ (x < Fp.fin 0) → leaky_relu_activation rnd x = x := by
    intro x hx
    unfold leaky_relu_activation
    rw [if_neg hx]
  refine ⟨fun x hx => hkeep x (not_lt_of_fin_zero_le x hx),
    leaky_relu_negative_input rnd hr, ?_, ?_, ?_, ?_⟩
  · intro x
    by_cases hx : x < Fp.fin 0
    · exact not_lt_of_fin_zero_le _ (leaky_relu_negative_input rnd hr x hx).2
    · rw [hkeep x hx]; exact hx
  · have hx : Fp.fin (-(1 / 2 ^ 149)) < Fp.fin 0 := by
      rw [Fp.fin_lt_fin]; norm_num
    rw [(leaky_relu_negative_input rnd hr _ hx).1]
    simp only [Fp.mul, Fp.neg]
    apply hr.underflow <;> norm_num [TENTH]
  · rw [Fp.fin_le_fin]; norm_num
  · have hx : Fp.fin (-1) < Fp.fin 0 := by
      rw [Fp.fin_lt_fin]; norm_num
    rw [(leaky_relu_negative_input rnd hr _ hx).1, hkeep (Fp.fin 0) (by
      rw [Fp.fin_lt_fin]; norm_num)]
    simp only [Fp.mul, Fp.neg]
    have e : (-1 : ℚ) * -TENTH = TENTH := by ring
    rw [e, round_tenth rnd hr, Fp.fin_lt_fin]
    norm_num [TENTH]

/-- C20 (counterexample): the negative input `-2^-149` (the smallest subnormal) is
mapped to 0, not to a positive output: the product with `-0.1f` is below `2^-150`. -/
theorem float_leaky_relu_underflows_to_zero :
    Fp.fin (-(1 / 2 ^ 149)) < Fp.fin 0 ∧
    leaky_relu_activation flush_round (Fp.fin (-(1 / 2 ^ 149))) = Fp.fin 0 ∧
    ¬ (Fp.fin 0 < leaky_relu_activation flush_round (Fp.fin (-(1 / 2 ^ 149)))) := by
  have hx : Fp.fin (-(1 / 2 ^ 149)) < Fp.fin 0 := by
    rw [Fp.fin_lt_fin]; norm_num
  have hv : leaky_relu_activation flush_round (Fp.fin (-(1 / 2 ^ 149))) = Fp.fin 0 := by
    unfold leaky_relu_activation
    rw [if_pos hx]
    simp only [Fp.mul, Fp.neg]
    apply flush_round_like_float.underflow <;> norm_num [TENTH]
  refine ⟨hx, hv, ?_⟩
  rw [hv, Fp.fin_lt_fin]
  norm_num

/-- Instance of C20 (amended): the input -1. -/
theorem float_leaky_relu_never_negative_witness :
    RoundsLikeFloat flush_round ∧
    (Fp.fin (-1) < Fp.fin 0 ∧
      leaky_relu_activation flush_round (Fp.fin (-1)) =
        Fp.mul flush_round (Fp.fin (-1)) (Fp.fin TENTH).neg ∧
      Fp.fin 0 ≤ leaky_relu_activation flush_round (Fp.fin (-1))) :=
  ⟨flush_round_like_float, by rw [Fp.fin_lt_fin]; norm_num,
    (float_leaky_relu_never_negative flush_round flush_round_like_float).2.1 (Fp.fin (-1))
      (by rw [Fp.fin_lt_fin]; norm_num)⟩


/-- Instance of C2 (amended): the saturating network, output 0. -/
theorem float_pass_output_in_closed_range_witness :
    (RoundsLikeFloat flush_round ∧ ExpLikeFloat (float_exp fun _ => 1) ∧
      RESERVED_COUNT ≤ saturating_network.neurons.length ∧ saturating_network.ValidLinks ∧
      0 < OUTPUT_COUNT) ∧
    ∃ ns g1 x, pass_links flush_round saturating_network.neurons saturating_network.links =
        some ns ∧
      (ns[INPUT_COUNT + 0]?).map RetentiveNeuron.value = some x ∧
      pass flush_round (float_exp fun _ => 1) saturating_network = some g1 ∧
      g1.get_output_at 0 = some (sigmoid_activation flush_round (float_exp fun _ => 1) x) ∧
      (x = Fp.nan → sigmoid_activation flush_round (float_exp fun _ => 1) x = Fp.nan) ∧
      (x ≠ Fp.nan → Fp.fin 0 ≤ sigmoid_activation flush_round (float_exp fun _ => 1) x ∧
        sigmoid_activation flush_round (float_exp fun _ => 1) x ≤ Fp.fin 1) :=
  ⟨⟨flush_round_like_float, float_exp_like_float _ (fun _ => zero_le_one), by decide,
      saturating_network_valid, by decide⟩,
    float_pass_output_in_closed_range flush_round flush_round_like_float _
      (float_exp_like_float _ (fun _ => zero_le_one)) saturating_network (by decide)
      saturating_network_valid 0 (by decide)⟩

/-- Instance of C3 (amended): the second link of the saturating network; its sum is -1000. -/
theorem float_pass_link_clamped_unless_nan_witness :
    (saturating_network.ValidLinks ∧
      saturating_network.links = [⟨0, 5, Fp.fin 1⟩] ++ ⟨0, 6, Fp.fin (-1)⟩ :: []) ∧
    ∃ ns ns1 e s n, pass_links flush_round saturating_network.neurons [⟨0, 5, Fp.fin 1⟩] =
        some ns ∧
      ns[(⟨0, 6, Fp.fin (-1)⟩ : Link Fp).end_neuron_index]? = some e ∧
      ns[(⟨0, 6, Fp.fin (-1)⟩ : Link Fp).start_neuron_index]? = some s ∧
      pass_link flush_round ns ⟨0, 6, Fp.fin (-1)⟩ = some ns1 ∧
      ns1[(⟨0, 6, Fp.fin (-1)⟩ : Link Fp).end_neuron_index]? = some n ∧
      (link_sum flush_round e s ⟨0, 6, Fp.fin (-1)⟩ = Fp.nan → n.value = Fp.nan) ∧
      (link_sum flush_round e s ⟨0, 6, Fp.fin (-1)⟩ ≠ Fp.nan →
        MAX_ACTIVATION_VALUE.neg ≤ n.value ∧ n.value ≤ MAX_ACTIVATION_VALUE) :=
  ⟨⟨saturating_network_valid, rfl⟩,
    float_pass_link_clamped_unless_nan flush_round saturating_network saturating_network_valid
      [⟨0, 5, Fp.fin 1⟩] [] ⟨0, 6, Fp.fin (-1)⟩ rfl⟩

end FloatModel
